import Mathlib

/-!
Verification development for the aws-concept-map layout and viewport engines.

The definitions below are a shallow embedding of the TypeScript sources:
`LayoutEngine` (grouping, category grid placement, overlap validation) and
`CanvasRenderer` (canvas state, zoom/pan handlers, animation interpolation,
spatial navigation, connection opacity keys).  JavaScript numbers are
modelled as exact rationals; JS `Map`s keyed by strings as association
lists or functions to `Option`; JS objects in insertion order as
association lists.  The fold of `minX`/`maxX` starting from
`Infinity`/`-Infinity` is modelled with `WithTop ℚ` / `WithBot ℚ`.
-/

namespace AwsMap

/-- The `ServiceCategory` union type from `types.ts`. -/
inductive ServiceCategory
  | compute
  | storage
  | database
  | networking
  | security
  | management
  | cost
  | messaging
  | cdn
  | devtools
deriving DecidableEq, Repr

/-- The `Service` record from `types.ts` (with `x`/`y` present, as in
`PositionedService`; the layout engine reads `category` and writes `x`/`y`).
`resources` entries are `(title, url)` pairs. -/
structure Service where
  name : String
  category : ServiceCategory
  description : String
  details : String
  keyPoints : List String
  x : ℚ
  y : ℚ
  extendedDescription : Option String := none
  resources : List (String × String) := []
deriving DecidableEq

/-- A JS object `Record<string, Service>` in insertion order. -/
abbrev ServiceMap := List (String × Service)

/-- A JS `Map<string, number>` of node widths. -/
abbrev NodeWidthMap := String → Option ℚ

/-- `LayoutConfig` from `LayoutEngine.ts`. -/
structure LayoutConfig where
  defaultNodeWidth : ℚ
  nodeHeight : ℚ
  nodePadding : ℚ
  categoryPadding : ℚ
  categoryColumns : ℕ

/-- `DEFAULT_CONFIG` from `LayoutEngine.ts`. -/
def DEFAULT_CONFIG : LayoutConfig :=
  { defaultNodeWidth := 120
    nodeHeight := 40
    nodePadding := 30
    categoryPadding := 80
    categoryColumns := 4 }

/-- `CATEGORY_ORDER` from `LayoutEngine.ts`. -/
def CATEGORY_ORDER : List ServiceCategory :=
  [.networking, .compute, .storage, .database, .security,
   .management, .messaging, .devtools, .cdn, .cost]

/-- `LayoutEngine.getNodeWidth`: `this.nodeWidths.get(key) ?? this.config.defaultNodeWidth`. -/
def getNodeWidth (cfg : LayoutConfig) (w : NodeWidthMap) (key : String) : ℚ :=
  (w key).getD cfg.defaultNodeWidth

/-- Insert an entry at the end of its category's group, creating the group at
the end on first appearance (JS object key insertion order). -/
def addToGroups (groups : List (ServiceCategory × List (String × Service)))
    (c : ServiceCategory) (e : String × Service) :
    List (ServiceCategory × List (String × Service)) :=
  match groups with
  | [] => [(c, [e])]
  | (c', es) :: rest =>
      if c = c' then (c', es ++ [e]) :: rest
      else (c', es) :: addToGroups rest c e

/-- `LayoutEngine.groupByCategory` before the per-group sort. -/
def groupByCategoryRaw (services : ServiceMap) :
    List (ServiceCategory × List (String × Service)) :=
  services.foldl (fun gs e => addToGroups gs e.2.category e) []

/-- `LayoutEngine.groupByCategory`: group by category, then `keys.sort()`
within each group (lexicographic by key, stable). -/
def groupByCategory (services : ServiceMap) :
    List (ServiceCategory × List (String × Service)) :=
  (groupByCategoryRaw services).map
    (fun g => (g.1, List.insertionSort (fun a b => a.1 ≤ b.1) g.2))

/-- `Math.ceil(Math.sqrt n)` on a natural number, computed exactly. -/
def ceilSqrt (n : ℕ) : ℕ :=
  if n = 0 then 0 else Nat.sqrt (n - 1) + 1

/-- `Math.ceil(n / cols)` on naturals (`cols > 0` on all call sites). -/
def ceilDiv (n cols : ℕ) : ℕ := (n + cols - 1) / cols

/-- `LayoutEngine.getMaxWidthForCategory`: default for an empty list, else
the running maximum starting from `0`. -/
def getMaxWidthForCategory (cfg : LayoutConfig) (w : NodeWidthMap)
    (es : List (String × Service)) : ℚ :=
  match es with
  | [] => cfg.defaultNodeWidth
  | _ => es.foldl (fun m e => max m (getNodeWidth cfg w e.1)) 0

/-- Per-category grid dimensions, as computed in
`LayoutEngine.computeCategoryPositions`. -/
structure CatDims where
  cols : ℕ
  rows : ℕ
  width : ℚ
  height : ℚ
  maxNodeWidth : ℚ

/-- The dimensions entry for one category's (nonempty) key list. -/
def catDims (cfg : LayoutConfig) (w : NodeWidthMap)
    (es : List (String × Service)) : CatDims :=
  let cols := ceilSqrt es.length
  let rows := ceilDiv es.length cols
  let maxNodeWidth := getMaxWidthForCategory cfg w es
  { cols := cols
    rows := rows
    width := (cols : ℚ) * (maxNodeWidth + cfg.nodePadding) - cfg.nodePadding
    height := (rows : ℚ) * (cfg.nodeHeight + cfg.nodePadding) - cfg.nodePadding
    maxNodeWidth := maxNodeWidth }

/-- The per-category group position record produced by
`LayoutEngine.computeCategoryPositions`. -/
structure GroupPos where
  x : ℚ
  y : ℚ
  width : ℚ
  height : ℚ
  maxNodeWidth : ℚ

/-- Lookup by category in an association list (a JS `Map` keyed by category). -/
def findCat {β : Type} (c : ServiceCategory) :
    List (ServiceCategory × β) → Option β
  | [] => none
  | (c', b) :: rest => if c = c' then some b else findCat c rest

/-- The dimension pass of `computeCategoryPositions`: skip absent or empty
categories, in `CATEGORY_ORDER`. -/
def categoryDimensions (cfg : LayoutConfig) (w : NodeWidthMap)
    (grouped : List (ServiceCategory × List (String × Service))) :
    List (ServiceCategory × CatDims) :=
  CATEGORY_ORDER.filterMap (fun c =>
    match findCat c grouped with
    | none => none
    | some es => if es.length = 0 then none else some (c, catDims cfg w es))

/-- The arrangement loop of `computeCategoryPositions`: place category boxes
left to right, breaking to a new row after `categoryColumns` boxes; the state
is `(currentX, currentY, rowMaxHeight, colCount)`. -/
def placeLoop (cfg : LayoutConfig) :
    List (ServiceCategory × CatDims) → ℚ → ℚ → ℚ → ℕ →
    List (ServiceCategory × GroupPos)
  | [], _, _, _, _ => []
  | (c, d) :: rest, curX, curY, rowMaxH, colCount =>
      if cfg.categoryColumns ≤ colCount then
        (c, ⟨0, curY + rowMaxH + cfg.categoryPadding, d.width, d.height, d.maxNodeWidth⟩) ::
          placeLoop cfg rest (d.width + cfg.categoryPadding)
            (curY + rowMaxH + cfg.categoryPadding) (max 0 d.height) 1
      else
        (c, ⟨curX, curY, d.width, d.height, d.maxNodeWidth⟩) ::
          placeLoop cfg rest (curX + d.width + cfg.categoryPadding) curY
            (max rowMaxH d.height) (colCount + 1)

/-- `LayoutEngine.computeCategoryPositions`. -/
def computeCategoryPositions (cfg : LayoutConfig) (w : NodeWidthMap)
    (grouped : List (ServiceCategory × List (String × Service))) :
    List (ServiceCategory × GroupPos) :=
  placeLoop cfg (categoryDimensions cfg w grouped) 0 0 0 0

/-- Center of the grid cell for index `i` inside a category group
(`layoutCategoryServices` body). -/
def cellPos (cfg : LayoutConfig) (gp : GroupPos) (cols : ℕ) (i : ℕ) : ℚ × ℚ :=
  ((gp.x + (↑(i % cols) : ℚ) * (gp.maxNodeWidth + cfg.nodePadding) + gp.maxNodeWidth / 2),
   (gp.y + (↑(i / cols) : ℚ) * (cfg.nodeHeight + cfg.nodePadding) + cfg.nodeHeight / 2))

/-- One entry of the write-back loop of `computeLayout`: the service keeps
every field except `x`/`y`, which receive the grid cell center for index `i`. -/
def placeEntry (cfg : LayoutConfig) (gp : GroupPos) (cols i : ℕ)
    (e : String × Service) : String × Service :=
  (e.1, { e.2 with x := (cellPos cfg gp cols i).1, y := (cellPos cfg gp cols i).2 })

/-- The indexed loop of `computeLayout` over one category's keys: entry `i`
receives the center `positions[i]` from `layoutCategoryServices` and all
other fields are spread from the input service. -/
def positionGroupAux (cfg : LayoutConfig) (gp : GroupPos) (cols : ℕ) :
    ℕ → List (String × Service) → List (String × Service)
  | _, [] => []
  | i, e :: rest =>
      placeEntry cfg gp cols i e :: positionGroupAux cfg gp cols (i + 1) rest

/-- Position all services of one category group
(`layoutCategoryServices` zipped with the write-back loop of `computeLayout`). -/
def positionGroup (cfg : LayoutConfig) (es : List (String × Service))
    (gp : GroupPos) : List (String × Service) :=
  positionGroupAux cfg gp (ceilSqrt es.length) 0 es

/-- The `bounds` record of `LayoutResult`; `⊤`/`⊥` model the initial
`Infinity`/`-Infinity` accumulators. -/
structure LayoutBounds where
  minX : WithTop ℚ
  maxX : WithBot ℚ
  minY : WithTop ℚ
  maxY : WithBot ℚ
deriving DecidableEq

/-- The `minX/maxX/minY/maxY` accumulation of `computeLayout`, folded over the
positioned entries in emission order. -/
def computeBounds (cfg : LayoutConfig) (w : NodeWidthMap)
    (entries : List (String × Service)) : LayoutBounds :=
  entries.foldl
    (fun b e =>
      let nw := getNodeWidth cfg w e.1
      { minX := min b.minX ((e.2.x - nw / 2 : ℚ) : WithTop ℚ)
        maxX := max b.maxX ((e.2.x + nw / 2 : ℚ) : WithBot ℚ)
        minY := min b.minY ((e.2.y - cfg.nodeHeight / 2 : ℚ) : WithTop ℚ)
        maxY := max b.maxY ((e.2.y + cfg.nodeHeight / 2 : ℚ) : WithBot ℚ) })
    ⟨⊤, ⊥, ⊤, ⊥⟩

/-- `LayoutResult` from `LayoutEngine.ts`. -/
structure LayoutResult where
  services : ServiceMap
  bounds : LayoutBounds

/-- `LayoutEngine.computeLayout`. -/
def computeLayout (cfg : LayoutConfig) (w : NodeWidthMap)
    (services : ServiceMap) : LayoutResult :=
  let grouped := groupByCategory services
  let catPos := computeCategoryPositions cfg w grouped
  let positioned := grouped.map (fun g =>
    match findCat g.1 catPos with
    | none => []
    | some gp => positionGroup cfg g.2 gp)
  let result := positioned.flatten
  { services := result, bounds := computeBounds cfg w result }

/-- `LayoutEngine.nodesOverlap`: axis-aligned rectangle intersection using the
two nodes' own widths and the shared node height; touching edges count as an
overlap. -/
def nodesOverlap (cfg : LayoutConfig) (w : NodeWidthMap)
    (key1 : String) (pos1 : ℚ × ℚ) (key2 : String) (pos2 : ℚ × ℚ) : Bool :=
  let halfWidth1 := getNodeWidth cfg w key1 / 2
  let halfWidth2 := getNodeWidth cfg w key2 / 2
  let halfHeight := cfg.nodeHeight / 2
  !(decide (pos1.1 + halfWidth1 < pos2.1 - halfWidth2) ||
    decide (pos1.1 - halfWidth1 > pos2.1 + halfWidth2) ||
    decide (pos1.2 + halfHeight < pos2.2 - halfHeight) ||
    decide (pos1.2 - halfHeight > pos2.2 + halfHeight))

/-- All ordered pairs `(l[i], l[j])` with `i < j`, in the double-loop order of
`validateNoOverlaps`. -/
def allPairs {α : Type} : List α → List (α × α)
  | [] => []
  | x :: xs => xs.map (fun y => (x, y)) ++ allPairs xs

/-- `LayoutEngine.validateNoOverlaps`. -/
def validateNoOverlaps (cfg : LayoutConfig) (w : NodeWidthMap)
    (services : ServiceMap) : Bool × List (String × String) :=
  let overlaps :=
    ((allPairs services).filter (fun p =>
        nodesOverlap cfg w p.1.1 (p.1.2.x, p.1.2.y) p.2.1 (p.2.2.x, p.2.2.y))).map
      (fun p => (p.1.1, p.2.1))
  (overlaps.isEmpty, overlaps)

/-! Viewport / interaction engine (`CanvasRenderer.ts`) -/

/-- `CanvasState` from `CanvasRenderer.ts`. -/
structure CanvasState where
  scale : ℚ
  translateX : ℚ
  translateY : ℚ
deriving DecidableEq

/-- `Partial<CanvasState>` as consumed by `setState`. -/
structure PartialCanvasState where
  scale : Option ℚ := none
  translateX : Option ℚ := none
  translateY : Option ℚ := none

/-- The `ZOOM` configuration record from `config/index.ts`. -/
structure ZoomConfig where
  min : ℚ
  max : ℚ
  maxFitContent : ℚ
  wheelIn : ℚ
  wheelOut : ℚ
  keyboardStep : ℚ
  focusScale : ℚ

/-- `ZOOM` values from `config/index.ts`. -/
def ZOOM : ZoomConfig :=
  { min := 3/10, max := 3, maxFitContent := 3/2, wheelIn := 11/10,
    wheelOut := 9/10, keyboardStep := 1/10, focusScale := 13/10 }

/-- The `INTERACTION` configuration record from `config/index.ts`. -/
structure InteractionConfig where
  dragThreshold : ℚ
  panStep : ℚ
  viewPadding : ℚ
  viewportCullingPadding : ℚ
  spatialNavigationThreshold : ℚ
  spatialNavigationPerpendicularWeight : ℚ

/-- `INTERACTION` values from `config/index.ts`. -/
def INTERACTION : InteractionConfig :=
  { dragThreshold := 5, panStep := 50, viewPadding := 80,
    viewportCullingPadding := 100, spatialNavigationThreshold := 10,
    spatialNavigationPerpendicularWeight := 1/2 }

/-- The `ANIMATION` duration record from `config/index.ts` (milliseconds). -/
structure AnimationConfig where
  fadeInDuration : ℚ
  connectionTransitionDuration : ℚ
  wheelZoomDuration : ℚ
  keyboardZoomDuration : ℚ
  keyboardPanDuration : ℚ
  viewTransitionDuration : ℚ
  momentumDuration : ℚ
  defaultDuration : ℚ

/-- `ANIMATION` values from `config/index.ts`. -/
def ANIMATION : AnimationConfig :=
  { fadeInDuration := 800, connectionTransitionDuration := 300,
    wheelZoomDuration := 120, keyboardZoomDuration := 150,
    keyboardPanDuration := 150, viewTransitionDuration := 400,
    momentumDuration := 600, defaultDuration := 300 }

/-- The `CONNECTION_OPACITY` record from `config/index.ts`. -/
structure ConnectionOpacityConfig where
  normal : ℚ
  highlighted : ℚ
  dimmed : ℚ

/-- `CONNECTION_OPACITY` values from `config/index.ts`. -/
def CONNECTION_OPACITY : ConnectionOpacityConfig :=
  { normal := 3/10, highlighted := 8/10, dimmed := 1/10 }

/-- `NODE_DIMENSIONS.defaultWidth` from `config/index.ts`. -/
def NODE_DIMENSIONS_defaultWidth : ℚ := 120

/-- `NODE_DIMENSIONS.height` from `config/index.ts`. -/
def NODE_DIMENSIONS_height : ℚ := 40

/-- Screen-to-world transform: `(p - translate) / scale`. -/
def screenToWorld (state : CanvasState) (p : ℚ × ℚ) : ℚ × ℚ :=
  ((p.1 - state.translateX) / state.scale, (p.2 - state.translateY) / state.scale)

/-- World-to-screen transform, the inverse convention used by `render()`:
`translate` then `scale`, so `screen = world * scale + translate`. -/
def worldToScreen (state : CanvasState) (p : ℚ × ℚ) : ℚ × ℚ :=
  (p.1 * state.scale + state.translateX, p.2 * state.scale + state.translateY)

/-- `Math.max(ZOOM.min, Math.min(ZOOM.max, s))`, the scale clamp used by every
zoom handler. -/
def clampScale (s : ℚ) : ℚ := max ZOOM.min (min ZOOM.max s)

/-- `CanvasRenderer.easeOutCubic`. -/
def easeOutCubic (t : ℚ) : ℚ := 1 - (1 - t) ^ 3

/-- One field of the animation interpolation:
`start + (target - start) * eased`. -/
def interpolate (start target eased : ℚ) : ℚ := start + (target - start) * eased

/-- The state written by `animationLoop` at a given elapsed time:
`progress = min(elapsed / duration, 1)`, eased by `easeOutCubic`, each field
linearly interpolated between the snapshot start state and the target. -/
def animInterp (startState targetState : CanvasState) (elapsed duration : ℚ) :
    CanvasState :=
  let progress := min (elapsed / duration) 1
  let eased := easeOutCubic progress
  { scale := interpolate startState.scale targetState.scale eased
    translateX := interpolate startState.translateX targetState.translateX eased
    translateY := interpolate startState.translateY targetState.translateY eased }

/-- The in-flight animation job: `animationStartState`, `targetState` and
`animationDuration` of `CanvasRenderer`. -/
structure AnimationJob where
  startState : CanvasState
  targetState : CanvasState
  duration : ℚ
deriving DecidableEq

/-- The mutable renderer state relevant to the claims: the canvas transform,
the in-flight animation job, the selection, and the connection opacity maps
(`connectionOpacities` / `connectionTargetOpacities`, as association lists). -/
structure Renderer where
  state : CanvasState
  job : Option AnimationJob
  selectedService : Option String
  connectionOpacities : List (String × ℚ)
  connectionTargetOpacities : List (String × ℚ)
deriving DecidableEq

/-- A renderer whose canvas state is `s`, with no animation, no selection and
empty opacity maps (the constructor initialises `state = {1, 0, 0}`). -/
def mkRenderer (s : CanvasState) : Renderer :=
  { state := s, job := none, selectedService := none,
    connectionOpacities := [], connectionTargetOpacities := [] }

/-- `CanvasRenderer.animateTo`: cancel any prior job, snapshot the current
state as start, and record the (fully merged) target and duration.  The live
state is unchanged until the first animation frame. -/
def animateTo (r : Renderer) (target : CanvasState) (duration : ℚ) : Renderer :=
  { r with job := some { startState := r.state, targetState := target, duration := duration } }

/-- One pass of `CanvasRenderer.animationLoop` at a given elapsed time: write
the interpolated state; if `progress < 1` the job stays scheduled, otherwise
it is cleared (at `progress = 1` the interpolated state equals the target). -/
def animationTick (r : Renderer) (elapsed : ℚ) : Renderer :=
  match r.job with
  | none => r
  | some j =>
      let s := animInterp j.startState j.targetState elapsed j.duration
      if elapsed / j.duration < 1 then { r with state := s }
      else { r with state := s, job := none }

/-- The wheel factor: `e.deltaY > 0 ? ZOOM.wheelOut : ZOOM.wheelIn`. -/
def wheelDelta (deltaY : ℚ) : ℚ := if 0 < deltaY then ZOOM.wheelOut else ZOOM.wheelIn

/-- `CanvasRenderer.handleWheel` for a wheel event at canvas-relative mouse
position `mouse`: the base scale comes from the in-flight target if animating
(`this.targetState?.scale ?? this.state.scale`), the world anchor from the
current interpolated state, and the clamped result is animated over
`ANIMATION.wheelZoomDuration`. -/
def handleWheel (r : Renderer) (mouse : ℚ × ℚ) (deltaY : ℚ) : Renderer :=
  let currentScale := (r.job.map (fun j => j.targetState.scale)).getD r.state.scale
  let newScale := clampScale (currentScale * wheelDelta deltaY)
  let world := screenToWorld r.state mouse
  animateTo r
    { scale := newScale
      translateX := mouse.1 - world.1 * newScale
      translateY := mouse.2 - world.2 * newScale }
    ANIMATION.wheelZoomDuration

/-- `CanvasRenderer.zoomAtCenter` (keyboard `+`/`-`): zoom toward the viewport
center by `factor`, animated over `ANIMATION.keyboardZoomDuration`. -/
def zoomAtCenter (r : Renderer) (rectW rectH : ℚ) (factor : ℚ) : Renderer :=
  let center : ℚ × ℚ := (rectW / 2, rectH / 2)
  let newScale := clampScale (r.state.scale * factor)
  let world := screenToWorld r.state center
  animateTo r
    { scale := newScale
      translateX := center.1 - world.1 * newScale
      translateY := center.2 - world.2 * newScale }
    ANIMATION.keyboardZoomDuration

/-- The pinch-zoom branch of `handleTouchMove` (two touches): the distance
ratio drives the scale directly (no animation), anchored at the canvas
relative touch center. -/
def pinchZoom (r : Renderer) (center : ℚ × ℚ) (ratio : ℚ) : Renderer :=
  let newScale := clampScale (r.state.scale * ratio)
  let world := screenToWorld r.state center
  { r with
    state :=
      { scale := newScale
        translateX := center.1 - world.1 * newScale
        translateY := center.2 - world.2 * newScale } }

/-- `CanvasRenderer.setState`: `this.state = { ...this.state, ...state }`
(no clamping). -/
def setState (r : Renderer) (p : PartialCanvasState) : Renderer :=
  { r with
    state :=
      { scale := p.scale.getD r.state.scale
        translateX := p.translateX.getD r.state.translateX
        translateY := p.translateY.getD r.state.translateY } }

/-- `CanvasRenderer.getState`. -/
def getState (r : Renderer) : CanvasState := r.state

/-- Lookup of `services[key]` on the renderer's service map. -/
def findKey (key : String) : ServiceMap → Option Service
  | [] => none
  | (k, s) :: rest => if k = key then some s else findKey key rest

/-- `CanvasRenderer.getConnectionKey`: order-independent pair key
(`from < to ? from:to : to:from`, lexicographic string comparison). -/
def getConnectionKey (a b : String) : String :=
  if a < b then a ++ ":" ++ b else b ++ ":" ++ a

/-- `Map.set` on an association list: overwrite in place, else append. -/
def setOpacity (m : List (String × ℚ)) (key : String) (v : ℚ) :
    List (String × ℚ) :=
  match m with
  | [] => [(key, v)]
  | (k, w) :: rest =>
      if k = key then (k, v) :: rest else (k, w) :: setOpacity rest key v

/-- `Map.get` on an association list. -/
def lookupOpacity (m : List (String × ℚ)) (key : String) : Option ℚ :=
  match m with
  | [] => none
  | (k, w) :: rest => if k = key then some w else lookupOpacity rest key

/-- `CanvasRenderer.getConnectionOpacity`:
`this.connectionOpacities.get(key) ?? CONNECTION_OPACITY.normal`. -/
def getConnectionOpacity (m : List (String × ℚ)) (a b : String) : ℚ :=
  (lookupOpacity m (getConnectionKey a b)).getD CONNECTION_OPACITY.normal

/-- `CanvasRenderer.updateConnectionTargets`: recompute every connection's
target opacity from the selection (highlighted if it touches the selected
service, dimmed otherwise; normal with no selection). -/
def updateConnectionTargets (connections : List (String × String))
    (selectedKey : Option String) (targets : List (String × ℚ)) :
    List (String × ℚ) :=
  connections.foldl
    (fun m conn =>
      let key := getConnectionKey conn.1 conn.2
      let v :=
        match selectedKey with
        | none => CONNECTION_OPACITY.normal
        | some sel =>
            if conn.1 = sel ∨ conn.2 = sel then CONNECTION_OPACITY.highlighted
            else CONNECTION_OPACITY.dimmed
      setOpacity m key v)
    targets

/-- `CanvasRenderer.focusOnService`: unknown keys are a silent no-op;
otherwise select the service, retarget connection opacities on a selection
change, and move to `ZOOM.focusScale` centered on the service (animated over
`ANIMATION.viewTransitionDuration`, or set directly). -/
def focusOnService (services : ServiceMap) (connections : List (String × String))
    (rectW rectH : ℚ) (key : String) (animate : Bool) (r : Renderer) : Renderer :=
  match findKey key services with
  | none => r
  | some s =>
      let targetScale := ZOOM.focusScale
      let target : CanvasState :=
        { scale := targetScale
          translateX := rectW / 2 - s.x * targetScale
          translateY := rectH / 2 - s.y * targetScale }
      let r1 : Renderer :=
        { r with
          selectedService := some key
          connectionTargetOpacities :=
            if r.selectedService = some key then r.connectionTargetOpacities
            else updateConnectionTargets connections (some key) r.connectionTargetOpacities }
      if animate then animateTo r1 target ANIMATION.viewTransitionDuration
      else { r1 with state := target }

/-- Minimum of a nonempty list of rationals, folded from the head; on the
nonempty path this equals the source's fold of `Math.min` from `Infinity`. -/
def listMin : List ℚ → ℚ
  | [] => 0
  | x :: xs => xs.foldl min x

/-- Maximum of a nonempty list of rationals, folded from the head; on the
nonempty path this equals the source's fold of `Math.max` from `-Infinity`. -/
def listMax : List ℚ → ℚ
  | [] => 0
  | x :: xs => xs.foldl max x

/-- The renderer's node width lookup
(`this.nodeWidths.get(key) ?? NODE_DIMENSIONS.defaultWidth`). -/
def rendererNodeWidth (w : NodeWidthMap) (key : String) : ℚ :=
  (w key).getD NODE_DIMENSIONS_defaultWidth

/-- The target state computed by `centerViewOnContent` for a nonempty service
map: fit the content bounding box with `INTERACTION.viewPadding`, the scale
clamped to `[ZOOM.min, ZOOM.max]` and capped at `ZOOM.maxFitContent`. -/
def centerViewTarget (w : NodeWidthMap) (entries : ServiceMap)
    (rectW rectH : ℚ) : CanvasState :=
  let minX := listMin (entries.map (fun e => e.2.x - rendererNodeWidth w e.1 / 2))
  let maxX := listMax (entries.map (fun e => e.2.x + rendererNodeWidth w e.1 / 2))
  let minY := listMin (entries.map (fun e => e.2.y - NODE_DIMENSIONS_height / 2))
  let maxY := listMax (entries.map (fun e => e.2.y + NODE_DIMENSIONS_height / 2))
  let contentWidth := maxX - minX
  let contentHeight := maxY - minY
  let centerX := (minX + maxX) / 2
  let centerY := (minY + maxY) / 2
  let scaleX := (rectW - INTERACTION.viewPadding * 2) / contentWidth
  let scaleY := (rectH - INTERACTION.viewPadding * 2) / contentHeight
  let scale := min (max ZOOM.min (min (min scaleX scaleY) ZOOM.maxFitContent)) ZOOM.max
  { scale := scale
    translateX := rectW / 2 - centerX * scale
    translateY := rectH / 2 - centerY * scale }

/-- `CanvasRenderer.centerViewOnContent`: empty map resets the transform to
`{1, 0, 0}`; otherwise animate to (or directly set) the fitted target. -/
def centerViewOnContent (w : NodeWidthMap) (entries : ServiceMap)
    (rectW rectH : ℚ) (animate : Bool) (r : Renderer) : Renderer :=
  match entries with
  | [] => { r with state := { scale := 1, translateX := 0, translateY := 0 } }
  | _ =>
      let target := centerViewTarget w entries rectW rectH
      if animate then animateTo r target ANIMATION.viewTransitionDuration
      else { r with state := target }

/-- The four `navigateToServiceInDirection` directions. -/
inductive Direction
  | up
  | down
  | left
  | right
deriving DecidableEq

/-- The direction guard of the candidate loop: the signed primary-axis delta
must exceed `INTERACTION.spatialNavigationThreshold` in the requested
direction (negative y is up). -/
def inDirection (dir : Direction) (dx dy : ℚ) : Bool :=
  match dir with
  | .up => decide (dy < -INTERACTION.spatialNavigationThreshold)
  | .down => decide (INTERACTION.spatialNavigationThreshold < dy)
  | .left => decide (dx < -INTERACTION.spatialNavigationThreshold)
  | .right => decide (INTERACTION.spatialNavigationThreshold < dx)

/-- The candidate score:
`primaryDistance + perpendicularOffset * INTERACTION.spatialNavigationPerpendicularWeight`. -/
def dirScore (dir : Direction) (dx dy : ℚ) : ℚ :=
  match dir with
  | .up => -dy + |dx| * INTERACTION.spatialNavigationPerpendicularWeight
  | .down => dy + |dx| * INTERACTION.spatialNavigationPerpendicularWeight
  | .left => -dx + |dy| * INTERACTION.spatialNavigationPerpendicularWeight
  | .right => dx + |dy| * INTERACTION.spatialNavigationPerpendicularWeight

/-- The candidate scan of `navigateToServiceInDirection`: skip the selected
service, keep nodes in the requested direction, and track the best candidate
(`score < bestScore` — strict, so the first minimum wins). -/
def navLoop (selKey : String) (cur : Service) (dir : Direction) :
    List (String × Service) → Option (String × ℚ) → Option (String × ℚ)
  | [], best => best
  | (k, s) :: rest, best =>
      if k = selKey then navLoop selKey cur dir rest best
      else
        let dx := s.x - cur.x
        let dy := s.y - cur.y
        if inDirection dir dx dy then
          let score := dirScore dir dx dy
          let best' :=
            match best with
            | none => some (k, score)
            | some (bk, bs) => if score < bs then some (k, score) else some (bk, bs)
          navLoop selKey cur dir rest best'
        else navLoop selKey cur dir rest best

/-- `CanvasRenderer.navigateToServiceInDirection`, as the selected candidate:
`none` models returning `false` (no selection, at most one service, or no
qualifying candidate). -/
def navigateToServiceInDirection (entries : ServiceMap)
    (selected : Option String) (dir : Direction) : Option String :=
  match selected with
  | none => none
  | some selKey =>
      if entries.length ≤ 1 then none
      else
        match findKey selKey entries with
        | none => none
        | some cur => (navLoop selKey cur dir entries none).map Prod.fst

/-- The qualifying candidates with their scores, in scan order: every other
node whose signed primary-axis delta is in the requested direction beyond the
threshold. -/
def navCandidates (entries : ServiceMap) (selKey : String) (cur : Service)
    (dir : Direction) : List (String × ℚ) :=
  (entries.filter (fun e =>
      decide (e.1 ≠ selKey) && inDirection dir (e.2.x - cur.x) (e.2.y - cur.y))).map
    (fun e => (e.1, dirScore dir (e.2.x - cur.x) (e.2.y - cur.y)))

/-- `CanvasRenderer.panByAmount`: pan from the in-flight target translate if
animating, else from the current translate, animated. -/
def panByAmount (r : Renderer) (deltaX deltaY duration : ℚ) : Renderer :=
  let currentX := (r.job.map (fun j => j.targetState.translateX)).getD r.state.translateX
  let currentY := (r.job.map (fun j => j.targetState.translateY)).getD r.state.translateY
  animateTo r
    { scale := r.state.scale
      translateX := currentX + deltaX
      translateY := currentY + deltaY }
    duration

/-- The pan displacement of each arrow key in `handleKeyDown`
(`ArrowUp` pans by `(0, +panStep)`, etc.). -/
def arrowPanDelta (dir : Direction) : ℚ × ℚ :=
  match dir with
  | .up => (0, INTERACTION.panStep)
  | .down => (0, -INTERACTION.panStep)
  | .left => (INTERACTION.panStep, 0)
  | .right => (-INTERACTION.panStep, 0)

/-- The arrow-key branch of `CanvasRenderer.handleKeyDown`: with a selection,
try spatial navigation first and focus the found service; otherwise fall back
to a plain animated pan by `INTERACTION.panStep`. -/
def handleArrowKey (services : ServiceMap) (connections : List (String × String))
    (rectW rectH : ℚ) (dir : Direction) (r : Renderer) : Renderer :=
  match navigateToServiceInDirection services r.selectedService dir with
  | some k => focusOnService services connections rectW rectH k true r
  | none =>
      panByAmount r (arrowPanDelta dir).1 (arrowPanDelta dir).2
        ANIMATION.keyboardPanDuration

/-- Setting `x := 0, y := 0`, used to compare layout output to input on all
fields other than the computed position. -/
def eraseXY (s : Service) : Service := { s with x := 0, y := 0 }

/-- The documented invariant on `CanvasState.scale`: clamped to
`[ZOOM.min, ZOOM.max]`. -/
def scaleInRange (s : ℚ) : Prop := ZOOM.min ≤ s ∧ s ≤ ZOOM.max

/-- Two positioned entries whose rectangles do not intersect according to
`nodesOverlap`. -/
def NoOverlapPair (cfg : LayoutConfig) (w : NodeWidthMap)
    (e1 e2 : String × Service) : Prop :=
  nodesOverlap cfg w e1.1 (e1.2.x, e1.2.y) e2.1 (e2.2.x, e2.2.y) = false

/-- A positioned entry whose node rectangle lies inside a category group box. -/
def InBox (cfg : LayoutConfig) (w : NodeWidthMap) (gp : GroupPos)
    (e : String × Service) : Prop :=
  gp.x ≤ e.2.x - getNodeWidth cfg w e.1 / 2
  ∧ e.2.x + getNodeWidth cfg w e.1 / 2 ≤ gp.x + gp.width
  ∧ gp.y ≤ e.2.y - cfg.nodeHeight / 2
  ∧ e.2.y + cfg.nodeHeight / 2 ≤ gp.y + gp.height

/-- Two category group boxes separated by at least `catPad` on one axis. -/
def BoxSep (catPad : ℚ) (g1 g2 : GroupPos) : Prop :=
  g1.x + g1.width + catPad ≤ g2.x ∨ g2.x + g2.width + catPad ≤ g1.x
  ∨ g1.y + g1.height + catPad ≤ g2.y ∨ g2.y + g2.height + catPad ≤ g1.y

/-- A concrete service record used to instantiate theorems. -/
def sampleService : Service :=
  { name := "EC2", category := .compute, description := "Elastic Compute Cloud",
    details := "Virtual servers", keyPoints := ["On-demand"], x := 0, y := 0 }

/-! Helper lemmas -/

theorem getConnectionKey_comm (a b : String) :
    getConnectionKey a b = getConnectionKey b a := by
  unfold getConnectionKey
  rcases lt_trichotomy a b with h | h | h
  · rw [if_pos h, if_neg (asymm h)]
  · subst h; rfl
  · rw [if_neg (asymm h), if_pos h]

theorem clampScale_mem (s : ℚ) : scaleInRange (clampScale s) := by
  constructor
  · exact le_max_left _ _
  · exact max_le (by norm_num [ZOOM]) (min_le_left _ _)

theorem easeOutCubic_bounds {p : ℚ} (h0 : 0 ≤ p) (h1 : p ≤ 1) :
    0 ≤ easeOutCubic p ∧ easeOutCubic p ≤ 1 := by
  unfold easeOutCubic
  constructor
  · have : (1 - p) ^ 3 ≤ 1 := pow_le_one₀ (by linarith) (by linarith)
    linarith
  · have : 0 ≤ (1 - p) ^ 3 := pow_nonneg (by linarith) 3
    linarith

theorem progress_bounds {e d : ℚ} (he : 0 ≤ e) (hd : 0 < d) :
    0 ≤ min (e / d) 1 ∧ min (e / d) 1 ≤ 1 :=
  ⟨le_min (div_nonneg he hd.le) zero_le_one, min_le_right _ _⟩

theorem interpolate_mem {lo hi s t e : ℚ} (hs1 : lo ≤ s) (hs2 : s ≤ hi)
    (ht1 : lo ≤ t) (ht2 : t ≤ hi) (he1 : 0 ≤ e) (he2 : e ≤ 1) :
    lo ≤ interpolate s t e ∧ interpolate s t e ≤ hi := by
  unfold interpolate
  constructor <;> nlinarith

theorem handleWheel_job (r : Renderer) (mouse : ℚ × ℚ) (deltaY : ℚ) :
    ∃ j, (handleWheel r mouse deltaY).job = some j
      ∧ j.targetState.scale =
          clampScale (((r.job.map (fun j' => j'.targetState.scale)).getD r.state.scale) *
            wheelDelta deltaY)
      ∧ j.duration = ANIMATION.wheelZoomDuration := by
  refine ⟨_, rfl, rfl, rfl⟩

theorem animationTick_state {r : Renderer} {j : AnimationJob} (e : ℚ)
    (hj : r.job = some j) :
    (animationTick r e).state = animInterp j.startState j.targetState e j.duration := by
  unfold animationTick
  rw [hj]
  dsimp only
  split <;> rfl

theorem animationTick_keeps_job {r : Renderer} {j : AnimationJob} (e : ℚ)
    (hj : r.job = some j) (h : e / j.duration < 1) :
    (animationTick r e).job = some j := by
  unfold animationTick
  rw [hj]
  simp [h]

theorem animationTick_completes {r : Renderer} {j : AnimationJob} (e : ℚ)
    (hj : r.job = some j) (h : ¬ e / j.duration < 1) :
    (animationTick r e).state.scale = j.targetState.scale := by
  unfold animationTick
  rw [hj]
  simp only [h, if_neg, if_false]
  have hmin : min (e / j.duration) 1 = 1 := min_eq_right (le_of_not_lt h)
  simp [animInterp, hmin, easeOutCubic, interpolate]

/-! Claim theorems -/

/-- C9: `getConnectionKey` is order-independent, so both orientations of a
connection read and update the same shared opacity entry. -/
theorem connectionKey_order_independent (a b : String) :
    getConnectionKey a b = getConnectionKey b a
    ∧ (∀ m, getConnectionOpacity m a b = getConnectionOpacity m b a)
    ∧ (∀ m v, setOpacity m (getConnectionKey a b) v = setOpacity m (getConnectionKey b a) v) := by
  refine ⟨getConnectionKey_comm a b, ?_, ?_⟩
  · intro m
    unfold getConnectionOpacity
    rw [getConnectionKey_comm]
  · intro m v
    rw [getConnectionKey_comm]

/-- C7: `computeLayout` on the empty service map returns the empty positioned
map and the degenerate initial bounds (the `Infinity`/`-Infinity`
accumulators, a region containing no point), and being a total function it
never throws. -/
theorem computeLayout_empty (cfg : LayoutConfig) (w : NodeWidthMap) :
    (computeLayout cfg w []).services = []
    ∧ (computeLayout cfg w []).bounds = ⟨⊤, ⊥, ⊤, ⊥⟩ :=
  ⟨rfl, rfl⟩

/-- C2: for a state with nonzero scale, the target state computed by the
wheel handler (anchored at the mouse position) and by the keyboard zoom
handler (anchored at the viewport center) maps the world point previously
under the anchor back to the anchor, exactly. -/
theorem zoom_anchor_invariance (r : Renderer) (mouse : ℚ × ℚ)
    (deltaY rectW rectH factor : ℚ) (hscale : r.state.scale ≠ 0) :
    (∀ j, (handleWheel r mouse deltaY).job = some j →
      worldToScreen j.targetState (screenToWorld r.state mouse) = mouse)
    ∧ (∀ j, (zoomAtCenter r rectW rectH factor).job = some j →
      worldToScreen j.targetState (screenToWorld r.state (rectW / 2, rectH / 2)) =
        (rectW / 2, rectH / 2)) := by
  constructor
  · intro j hj
    simp only [handleWheel, animateTo, Option.some.injEq] at hj
    subst hj
    simp only [worldToScreen, screenToWorld]
    exact Prod.ext (by ring) (by ring)
  · intro j hj
    simp only [zoomAtCenter, animateTo, Option.some.injEq] at hj
    subst hj
    simp only [worldToScreen, screenToWorld]
    exact Prod.ext (by ring) (by ring)

/-- Witness for C2 at a concrete state and anchor. -/
theorem zoom_anchor_invariance_witness :
    (mkRenderer ⟨2, 7, -3⟩).state.scale ≠ 0
    ∧ ((∀ j, (handleWheel (mkRenderer ⟨2, 7, -3⟩) (5, 11) (-1)).job = some j →
          worldToScreen j.targetState (screenToWorld (mkRenderer ⟨2, 7, -3⟩).state (5, 11)) = (5, 11))
       ∧ (∀ j, (zoomAtCenter (mkRenderer ⟨2, 7, -3⟩) 800 600 (11/10)).job = some j →
          worldToScreen j.targetState
            (screenToWorld (mkRenderer ⟨2, 7, -3⟩).state (800 / 2, 600 / 2)) =
            (800 / 2, 600 / 2))) :=
  ⟨by norm_num [mkRenderer],
   zoom_anchor_invariance (mkRenderer ⟨2, 7, -3⟩) (5, 11) (-1) 800 600 (11/10)
     (by norm_num [mkRenderer])⟩

/-- C6: `focusOnService` on a key absent from the service map is a silent
no-op: the whole renderer state (canvas transform, animation job, selection,
connection opacity maps) is returned unchanged. -/
theorem focusOnService_unknown_noop (services : ServiceMap)
    (connections : List (String × String)) (rectW rectH : ℚ) (key : String)
    (animate : Bool) (r : Renderer) (h : findKey key services = none) :
    focusOnService services connections rectW rectH key animate r = r := by
  unfold focusOnService
  rw [h]

/-- Witness for C6 on a concrete one-entry map and unknown key. -/
theorem focusOnService_unknown_noop_witness :
    findKey "unknown" [("ec2", sampleService)] = none
    ∧ focusOnService [("ec2", sampleService)] [] 800 600 "unknown" true
        (mkRenderer ⟨1, 0, 0⟩) = mkRenderer ⟨1, 0, 0⟩ :=
  ⟨by decide, focusOnService_unknown_noop _ _ _ _ _ _ _ (by decide)⟩

/-- C3 counterexample: `setState` merges the given partial state verbatim,
so a single public `setState({scale: 10})` call moves `scale` outside
`[ZOOM.min, ZOOM.max]` — the claim that every public operation leaves scale
clamped fails on `setState`. -/
theorem setState_escapes_zoom_range :
    (setState (mkRenderer ⟨1, 0, 0⟩)
        { scale := some 10, translateX := none, translateY := none }).state.scale = 10
    ∧ ¬ scaleInRange
        (setState (mkRenderer ⟨1, 0, 0⟩)
          { scale := some 10, translateX := none, translateY := none }).state.scale := by
  constructor
  · rfl
  · intro h
    have h2 := h.2
    norm_num [setState, mkRenderer, ZOOM] at h2

/-- C3 (amended): every scale written or targeted by the renderer's input
handlers — wheel zoom, keyboard zoom, pinch zoom, center-on-content, focus,
and animation ticks interpolating between in-range endpoints — lies in
`[ZOOM.min, ZOOM.max]`; `setState` alone applies the caller's partial state
without clamping. -/
theorem scale_clamped_by_handlers (r : Renderer) (mouse center : ℚ × ℚ)
    (deltaY ratio rectW rectH factor : ℚ) (w : NodeWidthMap)
    (services : ServiceMap) (connections : List (String × String)) (key : String) :
    (∀ j, (handleWheel r mouse deltaY).job = some j → scaleInRange j.targetState.scale)
    ∧ (∀ j, (zoomAtCenter r rectW rectH factor).job = some j → scaleInRange j.targetState.scale)
    ∧ scaleInRange (pinchZoom r center ratio).state.scale
    ∧ scaleInRange (centerViewTarget w services rectW rectH).scale
    ∧ (∀ animate r', (centerViewOnContent w [] rectW rectH animate r').state.scale = 1)
    ∧ (∀ s j, findKey key services = some s →
        (focusOnService services connections rectW rectH key true r).job = some j →
        scaleInRange j.targetState.scale)
    ∧ (∀ j elapsed, r.job = some j →
        scaleInRange j.startState.scale → scaleInRange j.targetState.scale →
        0 ≤ elapsed → 0 < j.duration →
        scaleInRange (animationTick r elapsed).state.scale) := by
  refine ⟨?_, ?_, ?_, ?_, ?_, ?_, ?_⟩
  · intro j hj
    simp only [handleWheel, animateTo, Option.some.injEq] at hj
    subst hj
    exact clampScale_mem _
  · intro j hj
    simp only [zoomAtCenter, animateTo, Option.some.injEq] at hj
    subst hj
    exact clampScale_mem _
  · exact clampScale_mem _
  · constructor
    · exact le_min (le_max_left _ _) (by norm_num [ZOOM])
    · exact min_le_right _ _
  · intro animate r'
    rfl
  · intro s j hs hj
    unfold focusOnService at hj
    rw [hs] at hj
    simp only [animateTo, if_true, Option.some.injEq] at hj
    subst hj
    exact ⟨by norm_num [ZOOM], by norm_num [ZOOM]⟩
  · intro j elapsed hj hstart htarget he hd
    have hp := progress_bounds he hd
    have heb := easeOutCubic_bounds hp.1 hp.2
    rw [animationTick_state elapsed hj]
    unfold animInterp
    exact interpolate_mem hstart.1 hstart.2 htarget.1 htarget.2 heb.1 heb.2

/-- Witness for the amended C3 at concrete inputs. -/
theorem scale_clamped_by_handlers_witness :
    findKey "ec2" [("ec2", sampleService)] = some sampleService
    ∧ (mkRenderer ⟨1, 0, 0⟩).job = none
    ∧ (∀ j, (handleWheel (mkRenderer ⟨1, 0, 0⟩) (5, 11) (-1)).job = some j →
        scaleInRange j.targetState.scale) := by
  refine ⟨by decide, rfl, ?_⟩
  exact (scale_clamped_by_handlers (mkRenderer ⟨1, 0, 0⟩) (5, 11) (0, 0) (-1) 1 800
    600 (11/10) (fun _ => none) [("ec2", sampleService)] [] "ec2").1

/-- C4: the animation interpolation equals the start state at `t = 0`,
equals the target exactly for every `t ≥ duration`, and each field
approaches the target monotonically as elapsed time increases. -/
theorem animInterp_easing_spec (s t : CanvasState) (d : ℚ) (hd : 0 < d) :
    animInterp s t 0 d = s
    ∧ (∀ e, d ≤ e → animInterp s t e d = t)
    ∧ (∀ e1 e2, 0 ≤ e1 → e1 ≤ e2 →
        |t.scale - (animInterp s t e2 d).scale| ≤ |t.scale - (animInterp s t e1 d).scale|
        ∧ |t.translateX - (animInterp s t e2 d).translateX| ≤
            |t.translateX - (animInterp s t e1 d).translateX|
        ∧ |t.translateY - (animInterp s t e2 d).translateY| ≤
            |t.translateY - (animInterp s t e1 d).translateY|) := by
  have key : ∀ e1 e2 : ℚ, 0 ≤ e1 → e1 ≤ e2 → ∀ a b : ℚ,
      |b - interpolate a b (easeOutCubic (min (e2 / d) 1))| ≤
        |b - interpolate a b (easeOutCubic (min (e1 / d) 1))| := by
    intro e1 e2 he1 h12 a b
    have hp1 := progress_bounds he1 hd
    have hp2 := progress_bounds (he1.trans h12) hd
    have hpm : min (e1 / d) 1 ≤ min (e2 / d) 1 :=
      min_le_min ((div_le_div_iff_of_pos_right hd).mpr h12) le_rfl
    have hem : easeOutCubic (min (e1 / d) 1) ≤ easeOutCubic (min (e2 / d) 1) := by
      unfold easeOutCubic
      have := pow_le_pow_left₀ (by linarith [hp2.2] : (0:ℚ) ≤ 1 - min (e2 / d) 1)
        (by linarith : 1 - min (e2 / d) 1 ≤ 1 - min (e1 / d) 1) 3
      linarith
    have he1b := easeOutCubic_bounds hp1.1 hp1.2
    have he2b := easeOutCubic_bounds hp2.1 hp2.2
    have hrw : ∀ e : ℚ, b - interpolate a b e = (b - a) * (1 - e) := by
      intro e; unfold interpolate; ring
    rw [hrw, hrw, abs_mul, abs_mul]
    refine mul_le_mul_of_nonneg_left ?_ (abs_nonneg _)
    rw [abs_of_nonneg (by linarith [he2b.2]), abs_of_nonneg (by linarith [he1b.2])]
    linarith
  refine ⟨?_, ?_, ?_⟩
  · have h0 : min ((0:ℚ) / d) 1 = 0 := by
      rw [zero_div]
      exact min_eq_left zero_le_one
    obtain ⟨ss, sx, sy⟩ := s
    simp [animInterp, h0, easeOutCubic, interpolate]
  · intro e he
    have h1 : min (e / d) 1 = 1 := min_eq_right ((one_le_div hd).mpr he)
    obtain ⟨ts, txx, tyy⟩ := t
    simp only [animInterp, h1, easeOutCubic, interpolate]
    norm_num
  · intro e1 e2 he1 h12
    exact ⟨key e1 e2 he1 h12 _ _, key e1 e2 he1 h12 _ _, key e1 e2 he1 h12 _ _⟩

/-- Witness for C4 at a concrete job. -/
theorem animInterp_easing_spec_witness :
    (0:ℚ) < 300
    ∧ (animInterp ⟨1, 0, 0⟩ ⟨2, 50, -40⟩ 0 300 = ⟨1, 0, 0⟩
       ∧ (∀ e, (300:ℚ) ≤ e → animInterp ⟨1, 0, 0⟩ ⟨2, 50, -40⟩ e 300 = ⟨2, 50, -40⟩)
       ∧ (∀ e1 e2, 0 ≤ e1 → e1 ≤ e2 →
          |(⟨2, 50, -40⟩ : CanvasState).scale -
              (animInterp ⟨1, 0, 0⟩ ⟨2, 50, -40⟩ e2 300).scale| ≤
            |(⟨2, 50, -40⟩ : CanvasState).scale -
              (animInterp ⟨1, 0, 0⟩ ⟨2, 50, -40⟩ e1 300).scale|
          ∧ |(⟨2, 50, -40⟩ : CanvasState).translateX -
              (animInterp ⟨1, 0, 0⟩ ⟨2, 50, -40⟩ e2 300).translateX| ≤
            |(⟨2, 50, -40⟩ : CanvasState).translateX -
              (animInterp ⟨1, 0, 0⟩ ⟨2, 50, -40⟩ e1 300).translateX|
          ∧ |(⟨2, 50, -40⟩ : CanvasState).translateY -
              (animInterp ⟨1, 0, 0⟩ ⟨2, 50, -40⟩ e2 300).translateY| ≤
            |(⟨2, 50, -40⟩ : CanvasState).translateY -
              (animInterp ⟨1, 0, 0⟩ ⟨2, 50, -40⟩ e1 300).translateY|)) :=
  ⟨by norm_num, animInterp_easing_spec ⟨1, 0, 0⟩ ⟨2, 50, -40⟩ 300 (by norm_num)⟩

/-- C5: a second wheel zoom-in arriving while the first zoom animation is
still in flight retargets from the in-flight job's target scale, so two
zoom-ins from scale `1.0` settle at `1.21`, strictly greater than
`1.0 * ZOOM.wheelIn`. -/
theorem wheel_retarget_accumulates (tx ty m1x m1y m2x m2y dy1 dy2 e : ℚ)
    (h1 : dy1 ≤ 0) (h2 : dy2 ≤ 0) (he0 : 0 ≤ e)
    (hlt : e < ANIMATION.wheelZoomDuration) :
    (animationTick
        (handleWheel
          (animationTick (handleWheel (mkRenderer ⟨1, tx, ty⟩) (m1x, m1y) dy1) e)
          (m2x, m2y) dy2)
        ANIMATION.wheelZoomDuration).state.scale = 121/100
    ∧ (1 : ℚ) * ZOOM.wheelIn < 121/100 := by
  have hwd1 : wheelDelta dy1 = 11/10 := by
    unfold wheelDelta
    rw [if_neg (not_lt.mpr h1)]
    norm_num [ZOOM]
  have hwd2 : wheelDelta dy2 = 11/10 := by
    unfold wheelDelta
    rw [if_neg (not_lt.mpr h2)]
    norm_num [ZOOM]
  obtain ⟨j1, hj1, hs1, hd1⟩ := handleWheel_job (mkRenderer ⟨1, tx, ty⟩) (m1x, m1y) dy1
  have hs1' : j1.targetState.scale = 11/10 := by
    rw [hs1, hwd1]
    norm_num [mkRenderer, clampScale, ZOOM]
  have hdur : ANIMATION.wheelZoomDuration = (120 : ℚ) := rfl
  have htick : (animationTick (handleWheel (mkRenderer ⟨1, tx, ty⟩) (m1x, m1y) dy1) e).job
      = some j1 := by
    refine animationTick_keeps_job e hj1 ?_
    rw [hd1, hdur]
    rw [div_lt_one (by norm_num)]
    rw [hdur] at hlt
    exact hlt
  obtain ⟨j2, hj2, hs2, hd2⟩ :=
    handleWheel_job (animationTick (handleWheel (mkRenderer ⟨1, tx, ty⟩) (m1x, m1y) dy1) e)
      (m2x, m2y) dy2
  have hs2' : j2.targetState.scale = 121/100 := by
    rw [hs2, htick, hwd2]
    simp only [Option.map_some', Option.getD_some, hs1']
    norm_num [clampScale, ZOOM]
  refine ⟨?_, by norm_num [ZOOM]⟩
  have hdone : ¬ ANIMATION.wheelZoomDuration / j2.duration < 1 := by
    rw [hd2, hdur]
    norm_num
  rw [animationTick_completes _ hj2 hdone, hs2']

/-- Witness for C5 with both wheel events at concrete positions and the
second arriving halfway through the first animation. -/
theorem wheel_retarget_accumulates_witness :
    ((-2 : ℚ) ≤ 0 ∧ (-3 : ℚ) ≤ 0 ∧ (0:ℚ) ≤ 60 ∧ (60:ℚ) < ANIMATION.wheelZoomDuration)
    ∧ ((animationTick
          (handleWheel
            (animationTick (handleWheel (mkRenderer ⟨1, 4, 5⟩) (100, 200) (-2)) 60)
            (150, 250) (-3))
          ANIMATION.wheelZoomDuration).state.scale = 121/100
       ∧ (1 : ℚ) * ZOOM.wheelIn < 121/100) :=
  ⟨⟨by norm_num, by norm_num, by norm_num, by norm_num [ANIMATION]⟩,
   wheel_retarget_accumulates 4 5 100 200 150 250 (-2) (-3) 60
     (by norm_num) (by norm_num) (by norm_num) (by norm_num [ANIMATION])⟩

theorem navCandidates_cons_skip {k : String} {s : Service} {rest : ServiceMap}
    {selKey : String} {cur : Service} {dir : Direction} (h : k = selKey) :
    navCandidates ((k, s) :: rest) selKey cur dir = navCandidates rest selKey cur dir := by
  unfold navCandidates
  simp [List.filter_cons, h]

theorem navCandidates_cons_out {k : String} {s : Service} {rest : ServiceMap}
    {selKey : String} {cur : Service} {dir : Direction} (h : ¬ k = selKey)
    (hdir : inDirection dir (s.x - cur.x) (s.y - cur.y) = false) :
    navCandidates ((k, s) :: rest) selKey cur dir = navCandidates rest selKey cur dir := by
  unfold navCandidates
  simp [List.filter_cons, h, hdir]

theorem navCandidates_cons_in {k : String} {s : Service} {rest : ServiceMap}
    {selKey : String} {cur : Service} {dir : Direction} (h : ¬ k = selKey)
    (hdir : inDirection dir (s.x - cur.x) (s.y - cur.y) = true) :
    navCandidates ((k, s) :: rest) selKey cur dir =
      (k, dirScore dir (s.x - cur.x) (s.y - cur.y)) :: navCandidates rest selKey cur dir := by
  unfold navCandidates
  simp [List.filter_cons, h, hdir]

theorem navLoop_spec (selKey : String) (cur : Service) (dir : Direction) :
    ∀ (entries : List (String × Service)) (best : Option (String × ℚ)),
      (∀ k sc, navLoop selKey cur dir entries best = some (k, sc) →
        (best = some (k, sc) ∨ (k, sc) ∈ navCandidates entries selKey cur dir)
        ∧ (∀ p ∈ navCandidates entries selKey cur dir, sc ≤ p.2)
        ∧ (∀ b, best = some b → sc ≤ b.2))
      ∧ (navLoop selKey cur dir entries best = none ↔
          best = none ∧ navCandidates entries selKey cur dir = []) := by
  intro entries
  induction entries with
  | nil =>
      intro best
      constructor
      · intro k sc hloop
        simp only [navLoop] at hloop
        refine ⟨Or.inl hloop, by simp [navCandidates], ?_⟩
        intro b hb
        have hbk : b = (k, sc) := Option.some_inj.mp (hb.symm.trans hloop)
        rw [hbk]
      · simp [navLoop, navCandidates]
  | cons e rest ih =>
      obtain ⟨k₀, s₀⟩ := e
      intro best
      by_cases hsel : k₀ = selKey
      · have hrw : navLoop selKey cur dir ((k₀, s₀) :: rest) best =
            navLoop selKey cur dir rest best := by
          simp [navLoop, hsel]
        rw [hrw, navCandidates_cons_skip hsel]
        exact ih best
      · by_cases hdir : inDirection dir (s₀.x - cur.x) (s₀.y - cur.y)
        · set score₀ := dirScore dir (s₀.x - cur.x) (s₀.y - cur.y) with hscore₀
          have hbest' : ∃ q : String × ℚ,
              (match best with
                | none => some (k₀, score₀)
                | some (bk, bs) =>
                    if score₀ < bs then some (k₀, score₀) else some (bk, bs)) = some q
              ∧ q.2 ≤ score₀
              ∧ (∀ b, best = some b → q.2 ≤ b.2)
              ∧ (q = (k₀, score₀) ∨ best = some q) := by
            match best with
            | none => exact ⟨(k₀, score₀), rfl, le_rfl, by simp, Or.inl rfl⟩
            | some (bk, bs) =>
                by_cases hlt : score₀ < bs
                · refine ⟨(k₀, score₀), by simp [hlt], le_rfl, ?_, Or.inl rfl⟩
                  intro b hb
                  cases hb
                  exact hlt.le
                · refine ⟨(bk, bs), by simp [hlt], not_lt.mp hlt, ?_, Or.inr rfl⟩
                  intro b hb
                  cases hb
                  exact le_rfl
          obtain ⟨q, hq, hqs, hqb, hqor⟩ := hbest'
          have hrw : navLoop selKey cur dir ((k₀, s₀) :: rest) best =
              navLoop selKey cur dir rest (some q) := by
            simp only [navLoop]
            rw [if_neg hsel, if_pos hdir, ← hscore₀, hq]
          rw [hrw, navCandidates_cons_in hsel hdir, ← hscore₀]
          obtain ⟨ih1, ih2⟩ := ih (some q)
          constructor
          · intro k sc hloop
            obtain ⟨m1, m2, m3⟩ := ih1 k sc hloop
            have hsc_q : sc ≤ q.2 := m3 q rfl
            refine ⟨?_, ?_, ?_⟩
            · rcases m1 with hm | hm
              · rw [Option.some_inj] at hm
                rcases hqor with h | h
                · refine Or.inr ?_
                  rw [← hm, h]
                  exact List.mem_cons_self _ _
                · refine Or.inl ?_
                  rw [← hm]
                  exact h
              · exact Or.inr (List.mem_cons_of_mem _ hm)
            · intro p hp
              rcases List.mem_cons.mp hp with h | h
              · rw [h]
                exact hsc_q.trans hqs
              · exact m2 p h
            · intro b hb
              exact hsc_q.trans (hqb b hb)
          · rw [ih2]
            constructor
            · intro h
              exact absurd h.1 (by simp)
            · intro h
              exact absurd h.2 (by simp)
        · have hdir' : inDirection dir (s₀.x - cur.x) (s₀.y - cur.y) = false :=
            Bool.not_eq_true _ ▸ eq_false_of_ne_true hdir
          have hrw : navLoop selKey cur dir ((k₀, s₀) :: rest) best =
              navLoop selKey cur dir rest best := by
            simp only [navLoop]
            rw [if_neg hsel, if_neg hdir]
          rw [hrw, navCandidates_cons_out hsel hdir']
          exact ih best

/-- C8: directional navigation considers exactly the other nodes whose signed
primary-axis delta exceeds the 10px threshold in the requested direction,
scores them as `primary + perpendicular * 0.5`, selects a candidate of
minimum score, and when no node qualifies the arrow key falls back to a plain
animated pan by the fixed pan step. -/
theorem navigate_direction_spec (entries : ServiceMap) (selKey : String)
    (cur : Service) (dir : Direction)
    (hsel : findKey selKey entries = some cur) :
    (∀ k, navigateToServiceInDirection entries (some selKey) dir = some k →
      ∃ sc, (k, sc) ∈ navCandidates entries selKey cur dir
        ∧ ∀ p ∈ navCandidates entries selKey cur dir, sc ≤ p.2)
    ∧ (navigateToServiceInDirection entries (some selKey) dir = none →
        navCandidates entries selKey cur dir = []
        ∧ ∀ (connections : List (String × String)) (rectW rectH : ℚ) (r : Renderer),
            r.selectedService = some selKey →
            handleArrowKey entries connections rectW rectH dir r =
              panByAmount r (arrowPanDelta dir).1 (arrowPanDelta dir).2
                ANIMATION.keyboardPanDuration) := by
  have hcand_of_short : entries.length ≤ 1 → navCandidates entries selKey cur dir = [] := by
    intro hlen
    match entries, hsel with
    | [(k₁, s₁)], hsel =>
        have hk : k₁ = selKey := by
          by_contra hne
          simp [findKey, hne] at hsel
        exact navCandidates_cons_skip hk
  constructor
  · intro k hk
    by_cases hlen : entries.length ≤ 1
    · simp [navigateToServiceInDirection, hlen] at hk
    · simp only [navigateToServiceInDirection, if_neg hlen, hsel] at hk
      obtain ⟨⟨k', sc⟩, hloop, hfst⟩ := Option.map_eq_some'.mp hk
      cases hfst
      obtain ⟨m1, m2, _⟩ := ((navLoop_spec selKey cur dir entries none).1) k' sc hloop
      rcases m1 with h | h
      · cases h
      · exact ⟨sc, h, m2⟩
  · intro hnone
    have hcand : navCandidates entries selKey cur dir = [] := by
      by_cases hlen : entries.length ≤ 1
      · exact hcand_of_short hlen
      · simp only [navigateToServiceInDirection, if_neg hlen, hsel] at hnone
        have hloop : navLoop selKey cur dir entries none = none :=
          Option.map_eq_none'.mp hnone
        exact (((navLoop_spec selKey cur dir entries none).2).mp hloop).2
    refine ⟨hcand, ?_⟩
    intro connections rectW rectH r hr
    unfold handleArrowKey
    rw [hr, hnone]

/-- Witness for C8 on a concrete two-node map. -/
theorem navigate_direction_spec_witness :
    findKey "ec2" [("ec2", sampleService), ("s3", { sampleService with y := 100 })] =
      some sampleService
    ∧ (∀ k, navigateToServiceInDirection
          [("ec2", sampleService), ("s3", { sampleService with y := 100 })]
          (some "ec2") .down = some k →
        ∃ sc, (k, sc) ∈ navCandidates
            [("ec2", sampleService), ("s3", { sampleService with y := 100 })]
            "ec2" sampleService .down
          ∧ ∀ p ∈ navCandidates
              [("ec2", sampleService), ("s3", { sampleService with y := 100 })]
              "ec2" sampleService .down, sc ≤ p.2) :=
  ⟨by decide,
   (navigate_direction_spec
      [("ec2", sampleService), ("s3", { sampleService with y := 100 })]
      "ec2" sampleService .down (by decide)).1⟩

/-! Association list and grouping lemmas for the layout proofs -/

theorem findCat_mem {β : Type} {c : ServiceCategory} {b : β} :
    ∀ {l : List (ServiceCategory × β)}, findCat c l = some b → (c, b) ∈ l := by
  intro l
  induction l with
  | nil => intro h; cases h
  | cons e rest ih =>
      obtain ⟨c', b'⟩ := e
      intro h
      simp only [findCat] at h
      by_cases hc : c = c'
      · rw [if_pos hc] at h
        cases h
        rw [hc]
        exact List.mem_cons_self _ _
      · rw [if_neg hc] at h
        exact List.mem_cons_of_mem _ (ih h)

theorem findCat_eq_none_iff {β : Type} {c : ServiceCategory} :
    ∀ {l : List (ServiceCategory × β)},
      findCat c l = none ↔ c ∉ l.map Prod.fst := by
  intro l
  induction l with
  | nil => simp [findCat]
  | cons e rest ih =>
      obtain ⟨c', b'⟩ := e
      by_cases hc : c = c'
      · simp [findCat, hc]
      · simp [findCat, hc, ih]

theorem findCat_of_mem_nodup {β : Type} {c : ServiceCategory} {b : β} :
    ∀ {l : List (ServiceCategory × β)}, (l.map Prod.fst).Nodup →
      (c, b) ∈ l → findCat c l = some b := by
  intro l
  induction l with
  | nil => intro _ h; cases h
  | cons e rest ih =>
      obtain ⟨c', b'⟩ := e
      intro hnd hm
      rw [List.map_cons, List.nodup_cons] at hnd
      rcases List.mem_cons.mp hm with h | h
      · cases h
        simp [findCat]
      · have hc : c ≠ c' := by
          intro hcc
          exact hnd.1 (hcc ▸ (List.mem_map.mpr ⟨(c, b), h, rfl⟩))
        simp only [findCat, if_neg hc]
        exact ih hnd.2 h

theorem assoc_unique {β : Type} {c : ServiceCategory} {b1 b2 : β} :
    ∀ {l : List (ServiceCategory × β)}, (l.map Prod.fst).Nodup →
      (c, b1) ∈ l → (c, b2) ∈ l → b1 = b2 := by
  intro l hnd h1 h2
  have e1 := findCat_of_mem_nodup hnd h1
  have e2 := findCat_of_mem_nodup hnd h2
  rw [e1] at e2
  exact Option.some_inj.mp e2

theorem addToGroups_fst (gs : List (ServiceCategory × List (String × Service)))
    (c : ServiceCategory) (e : String × Service) :
    (addToGroups gs c e).map Prod.fst = gs.map Prod.fst
    ∨ (addToGroups gs c e).map Prod.fst = gs.map Prod.fst ++ [c] := by
  induction gs with
  | nil => right; rfl
  | cons g rest ih =>
      obtain ⟨c', es⟩ := g
      by_cases hc : c = c'
      · left
        simp [addToGroups, hc]
      · simp only [addToGroups, if_neg hc, List.map_cons]
        rcases ih with h | h
        · left; rw [h]
        · right; rw [h]; rfl

theorem addToGroups_nodup {gs : List (ServiceCategory × List (String × Service))}
    {c : ServiceCategory} {e : String × Service}
    (hnd : (gs.map Prod.fst).Nodup) :
    ((addToGroups gs c e).map Prod.fst).Nodup := by
  induction gs with
  | nil => simp [addToGroups]
  | cons g rest ih =>
      obtain ⟨c', es⟩ := g
      rw [List.map_cons, List.nodup_cons] at hnd
      by_cases hc : c = c'
      · simp only [addToGroups, if_pos hc, List.map_cons, List.nodup_cons]
        exact ⟨hnd.1, hnd.2⟩
      · simp only [addToGroups, if_neg hc, List.map_cons, List.nodup_cons]
        refine ⟨?_, ih hnd.2⟩
        rcases addToGroups_fst rest c e with h | h
        · rw [h]; exact hnd.1
        · rw [h]
          intro hmem
          rcases List.mem_append.mp hmem with hmem | hmem
          · exact hnd.1 hmem
          · rcases List.mem_singleton.mp hmem with hcc
            exact hc hcc.symm

theorem addToGroups_ne_nil {gs : List (ServiceCategory × List (String × Service))}
    {c : ServiceCategory} {e : String × Service}
    (h : ∀ g ∈ gs, g.2 ≠ []) :
    ∀ g ∈ addToGroups gs c e, g.2 ≠ [] := by
  induction gs with
  | nil =>
      intro g hg
      rcases List.mem_singleton.mp hg with rfl
      simp
  | cons g₀ rest ih =>
      obtain ⟨c', es⟩ := g₀
      intro g hg
      by_cases hc : c = c'
      · simp only [addToGroups, if_pos hc] at hg
        rcases List.mem_cons.mp hg with rfl | hmem
        · simp
        · exact h g (List.mem_cons_of_mem _ hmem)
      · simp only [addToGroups, if_neg hc] at hg
        rcases List.mem_cons.mp hg with rfl | hmem
        · exact h _ (List.mem_cons_self _ _)
        · exact ih (fun g' hg' => h g' (List.mem_cons_of_mem _ hg')) g hmem

theorem foldl_addToGroups_inv (ss : List (String × Service)) :
    ∀ gs, (gs.map Prod.fst).Nodup → (∀ g ∈ gs, g.2 ≠ []) →
      (((ss.foldl (fun gs' e => addToGroups gs' e.2.category e) gs).map Prod.fst).Nodup
       ∧ ∀ g ∈ ss.foldl (fun gs' e => addToGroups gs' e.2.category e) gs, g.2 ≠ []) := by
  induction ss with
  | nil => intro gs h1 h2; exact ⟨h1, h2⟩
  | cons e rest ih =>
      intro gs h1 h2
      exact ih _ (addToGroups_nodup h1) (addToGroups_ne_nil h2)

theorem groupByCategory_nodup (services : ServiceMap) :
    ((groupByCategory services).map Prod.fst).Nodup := by
  have h := (foldl_addToGroups_inv services [] (by simp) (by simp)).1
  unfold groupByCategory groupByCategoryRaw
  rw [List.map_map]
  exact h

theorem groupByCategory_ne_nil {services : ServiceMap} :
    ∀ g ∈ groupByCategory services, g.2 ≠ [] := by
  have h := (foldl_addToGroups_inv services [] (by simp) (by simp)).2
  intro g hg
  unfold groupByCategory at hg
  obtain ⟨g₀, hg₀, hmap⟩ := List.mem_map.mp hg
  have hlen := List.Perm.length_eq (List.perm_insertionSort (fun a b => a.1 ≤ b.1) g₀.2)
  intro hnil
  rw [← hmap] at hnil
  simp only at hnil
  rw [hnil] at hlen
  exact h g₀ hg₀ (List.length_eq_zero.mp hlen.symm)

theorem mem_CATEGORY_ORDER (c : ServiceCategory) : c ∈ CATEGORY_ORDER := by
  cases c <;> decide

theorem CATEGORY_ORDER_nodup : CATEGORY_ORDER.Nodup := by decide

/-! Maximum width and grid arithmetic lemmas -/

theorem le_foldl_max {α : Type} (f : α → ℚ) :
    ∀ (l : List α) (init : ℚ), (init ≤ l.foldl (fun m e => max m (f e)) init)
      ∧ ∀ x ∈ l, f x ≤ l.foldl (fun m e => max m (f e)) init := by
  intro l
  induction l with
  | nil => intro init; exact ⟨le_rfl, by simp⟩
  | cons a rest ih =>
      intro init
      obtain ⟨h1, h2⟩ := ih (max init (f a))
      constructor
      · exact (le_max_left _ _).trans h1
      · intro x hx
        rcases List.mem_cons.mp hx with rfl | hx
        · exact (le_max_right _ _).trans h1
        · exact h2 x hx

theorem getMaxWidth_nonneg {cfg : LayoutConfig} {w : NodeWidthMap}
    {es : List (String × Service)} (hd : 0 ≤ cfg.defaultNodeWidth) :
    0 ≤ getMaxWidthForCategory cfg w es := by
  cases es with
  | nil => simpa [getMaxWidthForCategory] using hd
  | cons e rest =>
      have h := (le_foldl_max (fun x => getNodeWidth cfg w x.1) (e :: rest) 0).1
      simpa [getMaxWidthForCategory] using h

theorem le_getMaxWidth {cfg : LayoutConfig} {w : NodeWidthMap}
    {es : List (String × Service)} {e : String × Service} (he : e ∈ es) :
    getNodeWidth cfg w e.1 ≤ getMaxWidthForCategory cfg w es := by
  cases es with
  | nil => cases he
  | cons e' rest =>
      have h := (le_foldl_max (fun x => getNodeWidth cfg w x.1) (e' :: rest) 0).2 e he
      simpa [getMaxWidthForCategory] using h

theorem ceilSqrt_pos {n : ℕ} (h : 0 < n) : 0 < ceilSqrt n := by
  unfold ceilSqrt
  rw [if_neg (Nat.pos_iff_ne_zero.mp h)]
  exact Nat.succ_pos _

theorem ceilDiv_pos {n cols : ℕ} (hn : 0 < n) (hc : 0 < cols) :
    0 < ceilDiv n cols := by
  unfold ceilDiv
  exact Nat.div_pos (by omega) hc

theorem row_lt_rows {n cols i : ℕ} (hi : i < n) (hc : 0 < cols) :
    i / cols < ceilDiv n cols := by
  have h1 : i / cols ≤ (n - 1) / cols := Nat.div_le_div_right (by omega)
  have h2 : ceilDiv n cols = (n - 1) / cols + 1 := by
    unfold ceilDiv
    have : n + cols - 1 = (n - 1) + cols := by omega
    rw [this, Nat.add_div_right _ hc]
  omega

/-! Geometric core of the non-overlap proof -/

theorem nodesOverlap_eq_false_iff {cfg : LayoutConfig} {w : NodeWidthMap}
    {k1 k2 : String} {p1 p2 : ℚ × ℚ} :
    nodesOverlap cfg w k1 p1 k2 p2 = false ↔
      (p1.1 + getNodeWidth cfg w k1 / 2 < p2.1 - getNodeWidth cfg w k2 / 2
       ∨ p2.1 + getNodeWidth cfg w k2 / 2 < p1.1 - getNodeWidth cfg w k1 / 2
       ∨ p1.2 + cfg.nodeHeight / 2 < p2.2 - cfg.nodeHeight / 2
       ∨ p2.2 + cfg.nodeHeight / 2 < p1.2 - cfg.nodeHeight / 2) := by
  unfold nodesOverlap
  simp only [Bool.not_eq_false', Bool.or_eq_true, decide_eq_true_eq, gt_iff_lt]
  tauto

theorem cellPos_noOverlap {cfg : LayoutConfig} {w : NodeWidthMap} {gp : GroupPos}
    {cols i j : ℕ} (hij : i ≠ j) (hcols : 0 < cols)
    (hpad : 0 < cfg.nodePadding) (hh : 0 ≤ cfg.nodeHeight)
    (hmw : 0 ≤ gp.maxNodeWidth) {k1 k2 : String}
    (hw1 : getNodeWidth cfg w k1 ≤ gp.maxNodeWidth)
    (hw2 : getNodeWidth cfg w k2 ≤ gp.maxNodeWidth) :
    nodesOverlap cfg w k1 (cellPos cfg gp cols i) k2 (cellPos cfg gp cols j) = false := by
  rw [nodesOverlap_eq_false_iff]
  simp only [cellPos]
  rcases lt_trichotomy (i % cols) (j % cols) with hc | hc | hc
  · left
    have h1 : ((i % cols : ℕ) : ℚ) + 1 ≤ ((j % cols : ℕ) : ℚ) := by
      exact_mod_cast Nat.succ_le_of_lt hc
    have hcw : (0:ℚ) < gp.maxNodeWidth + cfg.nodePadding := by linarith
    nlinarith [mul_le_mul_of_nonneg_right h1 hcw.le]
  · have hr : i / cols ≠ j / cols := by
      intro hdiv
      exact hij (by rw [← Nat.div_add_mod i cols, ← Nat.div_add_mod j cols, hdiv, hc])
    rcases lt_or_gt_of_ne hr with hd | hd
    · right; right; left
      have h1 : ((i / cols : ℕ) : ℚ) + 1 ≤ ((j / cols : ℕ) : ℚ) := by
        exact_mod_cast Nat.succ_le_of_lt hd
      have hch : (0:ℚ) < cfg.nodeHeight + cfg.nodePadding := by linarith
      nlinarith [mul_le_mul_of_nonneg_right h1 hch.le]
    · right; right; right
      have h1 : ((j / cols : ℕ) : ℚ) + 1 ≤ ((i / cols : ℕ) : ℚ) := by
        exact_mod_cast Nat.succ_le_of_lt hd
      have hch : (0:ℚ) < cfg.nodeHeight + cfg.nodePadding := by linarith
      nlinarith [mul_le_mul_of_nonneg_right h1 hch.le]
  · right; left
    have h1 : ((j % cols : ℕ) : ℚ) + 1 ≤ ((i % cols : ℕ) : ℚ) := by
      exact_mod_cast Nat.succ_le_of_lt hc
    have hcw : (0:ℚ) < gp.maxNodeWidth + cfg.nodePadding := by linarith
    nlinarith [mul_le_mul_of_nonneg_right h1 hcw.le]

theorem mem_positionGroupAux {cfg : LayoutConfig} {gp : GroupPos} {cols : ℕ} :
    ∀ {es : List (String × Service)} {i : ℕ} {p : String × Service},
      p ∈ positionGroupAux cfg gp cols i es →
      ∃ j e, j < es.length ∧ e ∈ es ∧ p = placeEntry cfg gp cols (i + j) e := by
  intro es
  induction es with
  | nil => intro i p hp; cases hp
  | cons e₀ rest ih =>
      intro i p hp
      rcases List.mem_cons.mp hp with rfl | hp
      · exact ⟨0, e₀, by simp, List.mem_cons_self _ _, by simp⟩
      · obtain ⟨j, e, hj, he, hpe⟩ := ih hp
        refine ⟨j + 1, e, by simpa using Nat.succ_lt_succ hj,
          List.mem_cons_of_mem _ he, ?_⟩
        rw [hpe]
        have : i + 1 + j = i + (j + 1) := by omega
        rw [this]

theorem pairwise_positionGroupAux {cfg : LayoutConfig} {w : NodeWidthMap}
    {gp : GroupPos} {cols : ℕ} (hcols : 0 < cols)
    (hpad : 0 < cfg.nodePadding) (hh : 0 ≤ cfg.nodeHeight)
    (hmw : 0 ≤ gp.maxNodeWidth) :
    ∀ (es : List (String × Service)),
      (∀ e ∈ es, getNodeWidth cfg w e.1 ≤ gp.maxNodeWidth) →
      ∀ (i : ℕ), List.Pairwise (NoOverlapPair cfg w) (positionGroupAux cfg gp cols i es) := by
  intro es
  induction es with
  | nil => intro _ i; simp [positionGroupAux]
  | cons e₀ rest ih =>
      intro hes i
      simp only [positionGroupAux]
      refine List.Pairwise.cons ?_ (ih (fun e he => hes e (List.mem_cons_of_mem _ he)) (i + 1))
      intro b hb
      obtain ⟨j, e, hj, he, hbe⟩ := mem_positionGroupAux hb
      rw [hbe]
      unfold NoOverlapPair placeEntry
      simp only [Prod.mk.eta]
      have hne : i ≠ i + 1 + j := by omega
      exact cellPos_noOverlap hne hcols hpad hh hmw
        (hes e₀ (List.mem_cons_self _ _))
        (hes e (List.mem_cons_of_mem _ he))

theorem positionGroup_inBox {cfg : LayoutConfig} {w : NodeWidthMap}
    {es : List (String × Service)} {gp : GroupPos}
    (hpad : 0 < cfg.nodePadding) (hh : 0 ≤ cfg.nodeHeight)
    (hmw : 0 ≤ gp.maxNodeWidth)
    (hes : ∀ e ∈ es, getNodeWidth cfg w e.1 ≤ gp.maxNodeWidth)
    (hwidth : gp.width =
      ((ceilSqrt es.length : ℕ) : ℚ) * (gp.maxNodeWidth + cfg.nodePadding) - cfg.nodePadding)
    (hheight : gp.height =
      ((ceilDiv es.length (ceilSqrt es.length) : ℕ) : ℚ) *
        (cfg.nodeHeight + cfg.nodePadding) - cfg.nodePadding) :
    ∀ p ∈ positionGroup cfg es gp, InBox cfg w gp p := by
  intro p hp
  obtain ⟨j, e, hj, he, hpe⟩ := mem_positionGroupAux hp
  rw [zero_add] at hpe
  subst hpe
  unfold placeEntry
  have hn : 0 < es.length := by omega
  have hcols : 0 < ceilSqrt es.length := ceilSqrt_pos hn
  have hwe := hes e he
  have hcol_lt : j % ceilSqrt es.length < ceilSqrt es.length := Nat.mod_lt _ hcols
  have hrow_lt : j / ceilSqrt es.length < ceilDiv es.length (ceilSqrt es.length) :=
    row_lt_rows hj hcols
  have hcolq : ((j % ceilSqrt es.length : ℕ) : ℚ) + 1 ≤ ((ceilSqrt es.length : ℕ) : ℚ) := by
    exact_mod_cast Nat.succ_le_of_lt hcol_lt
  have hrowq : ((j / ceilSqrt es.length : ℕ) : ℚ) + 1 ≤
      ((ceilDiv es.length (ceilSqrt es.length) : ℕ) : ℚ) := by
    exact_mod_cast Nat.succ_le_of_lt hrow_lt
  have hcol0 : (0:ℚ) ≤ ((j % ceilSqrt es.length : ℕ) : ℚ) := Nat.cast_nonneg _
  have hrow0 : (0:ℚ) ≤ ((j / ceilSqrt es.length : ℕ) : ℚ) := Nat.cast_nonneg _
  unfold InBox
  simp only [cellPos]
  have hcw : (0:ℚ) < gp.maxNodeWidth + cfg.nodePadding := by linarith
  have hch : (0:ℚ) < cfg.nodeHeight + cfg.nodePadding := by linarith
  refine ⟨?_, ?_, ?_, ?_⟩
  · nlinarith [mul_nonneg hcol0 hcw.le]
  · rw [hwidth]
    nlinarith [mul_le_mul_of_nonneg_right hcolq hcw.le]
  · nlinarith [mul_nonneg hrow0 hch.le]
  · rw [hheight]
    nlinarith [mul_le_mul_of_nonneg_right hrowq hch.le]

theorem noOverlap_of_boxSep {cfg : LayoutConfig} {w : NodeWidthMap}
    {g1 g2 : GroupPos} {e1 e2 : String × Service} (hcat : 0 < cfg.categoryPadding)
    (h1 : InBox cfg w g1 e1) (h2 : InBox cfg w g2 e2)
    (hsep : BoxSep cfg.categoryPadding g1 g2) :
    NoOverlapPair cfg w e1 e2 := by
  obtain ⟨a1, b1, c1, d1⟩ := h1
  obtain ⟨a2, b2, c2, d2⟩ := h2
  unfold NoOverlapPair
  rw [nodesOverlap_eq_false_iff]
  rcases hsep with h | h | h | h
  · left; simp only; linarith
  · right; left; simp only; linarith
  · right; right; left; simp only; linarith
  · right; right; right; simp only; linarith

/-! Category box placement lemmas -/

theorem BoxSep_symm {catPad : ℚ} {g1 g2 : GroupPos} (h : BoxSep catPad g1 g2) :
    BoxSep catPad g2 g1 := by
  unfold BoxSep at h ⊢
  tauto

theorem placeLoop_keys (cfg : LayoutConfig) :
    ∀ (dims : List (ServiceCategory × CatDims)) (curX curY rowMaxH : ℚ) (colCount : ℕ),
      (placeLoop cfg dims curX curY rowMaxH colCount).map Prod.fst = dims.map Prod.fst := by
  intro dims
  induction dims with
  | nil => intro curX curY rowMaxH colCount; rfl
  | cons g rest ih =>
      obtain ⟨c, d⟩ := g
      intro curX curY rowMaxH colCount
      by_cases hcc : cfg.categoryColumns ≤ colCount
      · simp only [placeLoop, if_pos hcc, List.map_cons, ih]
      · simp only [placeLoop, if_neg hcc, List.map_cons, ih]

theorem placeLoop_carries (cfg : LayoutConfig) :
    ∀ (dims : List (ServiceCategory × CatDims)) (curX curY rowMaxH : ℚ) (colCount : ℕ),
      ∀ b ∈ placeLoop cfg dims curX curY rowMaxH colCount,
        ∃ d, (b.1, d) ∈ dims ∧ b.2.width = d.width ∧ b.2.height = d.height
          ∧ b.2.maxNodeWidth = d.maxNodeWidth := by
  intro dims
  induction dims with
  | nil => intro _ _ _ _ b hb; cases hb
  | cons g rest ih =>
      obtain ⟨c, d⟩ := g
      intro curX curY rowMaxH colCount b hb
      by_cases hcc : cfg.categoryColumns ≤ colCount
      · rw [placeLoop, if_pos hcc] at hb
        rcases List.mem_cons.mp hb with rfl | hb
        · exact ⟨d, List.mem_cons_self _ _, rfl, rfl, rfl⟩
        · obtain ⟨d', hd', h1, h2, h3⟩ := ih _ _ _ _ b hb
          exact ⟨d', List.mem_cons_of_mem _ hd', h1, h2, h3⟩
      · rw [placeLoop, if_neg hcc] at hb
        rcases List.mem_cons.mp hb with rfl | hb
        · exact ⟨d, List.mem_cons_self _ _, rfl, rfl, rfl⟩
        · obtain ⟨d', hd', h1, h2, h3⟩ := ih _ _ _ _ b hb
          exact ⟨d', List.mem_cons_of_mem _ hd', h1, h2, h3⟩

theorem placeLoop_ahead (cfg : LayoutConfig) (hcat : 0 < cfg.categoryPadding) :
    ∀ (dims : List (ServiceCategory × CatDims)),
      (∀ g ∈ dims, 0 ≤ g.2.width ∧ 0 ≤ g.2.height) →
      ∀ (curX curY rowMaxH : ℚ) (colCount : ℕ), 0 ≤ rowMaxH →
      ∀ b ∈ placeLoop cfg dims curX curY rowMaxH colCount,
        (b.2.y = curY ∧ curX ≤ b.2.x) ∨ (curY + rowMaxH + cfg.categoryPadding ≤ b.2.y) := by
  intro dims
  induction dims with
  | nil => intro _ _ _ _ _ _ b hb; cases hb
  | cons g rest ih =>
      obtain ⟨c, d⟩ := g
      intro hdims curX curY rowMaxH colCount hrm b hb
      have hd := hdims (c, d) (List.mem_cons_self _ _)
      have hrest := fun g hg => hdims g (List.mem_cons_of_mem _ hg)
      by_cases hcc : cfg.categoryColumns ≤ colCount
      · rw [placeLoop, if_pos hcc] at hb
        rcases List.mem_cons.mp hb with rfl | hb
        · right; exact le_rfl
        · have := ih hrest _ _ _ _ (le_max_left 0 d.height) b hb
          rcases this with ⟨hy, hx⟩ | hy
          · right; rw [hy]
          · right
            have hmax : (0:ℚ) ≤ max 0 d.height := le_max_left _ _
            linarith
      · rw [placeLoop, if_neg hcc] at hb
        rcases List.mem_cons.mp hb with rfl | hb
        · left; exact ⟨rfl, le_rfl⟩
        · have := ih hrest _ _ _ _ (le_trans hrm (le_max_left rowMaxH d.height)) b hb
          rcases this with ⟨hy, hx⟩ | hy
          · left
            refine ⟨hy, ?_⟩
            have : curX ≤ curX + d.width + cfg.categoryPadding := by linarith [hd.1]
            linarith
          · right
            have hmax : rowMaxH ≤ max rowMaxH d.height := le_max_left _ _
            linarith

theorem placeLoop_pairwise (cfg : LayoutConfig) (hcat : 0 < cfg.categoryPadding) :
    ∀ (dims : List (ServiceCategory × CatDims)),
      (∀ g ∈ dims, 0 ≤ g.2.width ∧ 0 ≤ g.2.height) →
      ∀ (curX curY rowMaxH : ℚ) (colCount : ℕ), 0 ≤ rowMaxH →
      List.Pairwise (fun a b => BoxSep cfg.categoryPadding a.2 b.2)
        (placeLoop cfg dims curX curY rowMaxH colCount) := by
  intro dims
  induction dims with
  | nil => intro _ _ _ _ _ _; simp [placeLoop]
  | cons g rest ih =>
      obtain ⟨c, d⟩ := g
      intro hdims curX curY rowMaxH colCount hrm
      have hd := hdims (c, d) (List.mem_cons_self _ _)
      have hrest := fun g hg => hdims g (List.mem_cons_of_mem _ hg)
      by_cases hcc : cfg.categoryColumns ≤ colCount
      · rw [placeLoop, if_pos hcc]
        refine List.Pairwise.cons ?_ (ih hrest _ _ _ _ (le_max_left 0 d.height))
        intro b hb
        have hahead := placeLoop_ahead cfg hcat rest hrest _ _ _ _
          (le_max_left 0 d.height) b hb
        unfold BoxSep
        rcases hahead with ⟨hy, hx⟩ | hy
        · left; simp only; linarith
        · right; right; left
          simp only
          have : d.height ≤ max 0 d.height := le_max_right _ _
          linarith
      · rw [placeLoop, if_neg hcc]
        refine List.Pairwise.cons ?_
          (ih hrest _ _ _ _ (le_trans hrm (le_max_left rowMaxH d.height)))
        intro b hb
        have hahead := placeLoop_ahead cfg hcat rest hrest _ _ _ _
          (le_trans hrm (le_max_left rowMaxH d.height)) b hb
        unfold BoxSep
        rcases hahead with ⟨hy, hx⟩ | hy
        · left; simp only; linarith
        · right; right; left
          simp only
          have : d.height ≤ max rowMaxH d.height := le_max_right _ _
          linarith

/-! Linking category dimensions, positions and groups -/

theorem categoryDimensions_mem {cfg : LayoutConfig} {w : NodeWidthMap}
    {grouped : List (ServiceCategory × List (String × Service))}
    {c : ServiceCategory} {d : CatDims}
    (h : (c, d) ∈ categoryDimensions cfg w grouped) :
    ∃ es, findCat c grouped = some es ∧ es ≠ [] ∧ d = catDims cfg w es := by
  obtain ⟨c', hc', hf⟩ := List.mem_filterMap.mp h
  cases hfind : findCat c' grouped with
  | none => rw [hfind] at hf; cases hf
  | some es =>
      rw [hfind] at hf
      dsimp only at hf
      by_cases hlen : es.length = 0
      · rw [if_pos hlen] at hf; cases hf
      · rw [if_neg hlen] at hf
        obtain ⟨hc'', hd⟩ := Prod.mk.injEq .. ▸ Option.some_inj.mp hf
        subst hc''
        exact ⟨es, hfind, fun hnil => hlen (by rw [hnil]; rfl), hd.symm⟩

theorem categoryDimensions_of_group {cfg : LayoutConfig} {w : NodeWidthMap}
    {services : ServiceMap} {g : ServiceCategory × List (String × Service)}
    (hg : g ∈ groupByCategory services) :
    (g.1, catDims cfg w g.2) ∈ categoryDimensions cfg w (groupByCategory services) := by
  refine List.mem_filterMap.mpr ⟨g.1, mem_CATEGORY_ORDER _, ?_⟩
  have hfind : findCat g.1 (groupByCategory services) = some g.2 :=
    findCat_of_mem_nodup (groupByCategory_nodup services) (by rwa [Prod.mk.eta])
  rw [hfind]
  dsimp only
  have hne : g.2 ≠ [] := groupByCategory_ne_nil g hg
  rw [if_neg (fun h => hne (List.length_eq_zero.mp h))]

theorem categoryDimensions_fst_sublist (cfg : LayoutConfig) (w : NodeWidthMap)
    (grouped : List (ServiceCategory × List (String × Service))) :
    List.Sublist ((categoryDimensions cfg w grouped).map Prod.fst) CATEGORY_ORDER := by
  unfold categoryDimensions
  generalize CATEGORY_ORDER = l
  induction l with
  | nil => simp
  | cons a rest ih =>
      rw [List.filterMap_cons]
      cases hfind : findCat a grouped with
      | none => exact ih.cons a
      | some es =>
          dsimp only
          by_cases hlen : es.length = 0
          · rw [if_pos hlen]
            exact ih.cons a
          · rw [if_neg hlen]
            exact ih.cons₂ a

theorem categoryDimensions_nodup (cfg : LayoutConfig) (w : NodeWidthMap)
    (grouped : List (ServiceCategory × List (String × Service))) :
    ((categoryDimensions cfg w grouped).map Prod.fst).Nodup :=
  CATEGORY_ORDER_nodup.sublist (categoryDimensions_fst_sublist cfg w grouped)

theorem categoryDimensions_nonneg {cfg : LayoutConfig} {w : NodeWidthMap}
    {grouped : List (ServiceCategory × List (String × Service))}
    (hpad : 0 < cfg.nodePadding) (hh : 0 ≤ cfg.nodeHeight)
    (hdw : 0 ≤ cfg.defaultNodeWidth) :
    ∀ gd ∈ categoryDimensions cfg w grouped, 0 ≤ gd.2.width ∧ 0 ≤ gd.2.height := by
  intro gd hgd
  obtain ⟨c, d⟩ := gd
  obtain ⟨es, _, hne, hd⟩ := categoryDimensions_mem hgd
  subst hd
  have hn : 0 < es.length := List.length_pos.mpr hne
  have hcols : 0 < ceilSqrt es.length := ceilSqrt_pos hn
  have hrows : 0 < ceilDiv es.length (ceilSqrt es.length) := ceilDiv_pos hn hcols
  have hcolsq : (1:ℚ) ≤ ((ceilSqrt es.length : ℕ) : ℚ) := by exact_mod_cast hcols
  have hrowsq : (1:ℚ) ≤ ((ceilDiv es.length (ceilSqrt es.length) : ℕ) : ℚ) := by
    exact_mod_cast hrows
  have hmw : 0 ≤ getMaxWidthForCategory cfg w es := getMaxWidth_nonneg hdw
  unfold catDims
  constructor
  · simp only
    nlinarith
  · simp only
    nlinarith

theorem catPos_of_group (cfg : LayoutConfig) (w : NodeWidthMap)
    (services : ServiceMap) {g : ServiceCategory × List (String × Service)}
    (hg : g ∈ groupByCategory services) :
    ∃ gp, findCat g.1 (computeCategoryPositions cfg w (groupByCategory services)) = some gp
      ∧ gp.maxNodeWidth = getMaxWidthForCategory cfg w g.2
      ∧ gp.width = ((ceilSqrt g.2.length : ℕ) : ℚ) * (gp.maxNodeWidth + cfg.nodePadding)
          - cfg.nodePadding
      ∧ gp.height = ((ceilDiv g.2.length (ceilSqrt g.2.length) : ℕ) : ℚ) *
          (cfg.nodeHeight + cfg.nodePadding) - cfg.nodePadding := by
  have hdim : (g.1, catDims cfg w g.2) ∈ categoryDimensions cfg w (groupByCategory services) :=
    categoryDimensions_of_group hg
  have hkeys : g.1 ∈ (computeCategoryPositions cfg w (groupByCategory services)).map Prod.fst := by
    unfold computeCategoryPositions
    rw [placeLoop_keys]
    exact List.mem_map.mpr ⟨(g.1, catDims cfg w g.2), hdim, rfl⟩
  cases hfind : findCat g.1 (computeCategoryPositions cfg w (groupByCategory services)) with
  | none => exact absurd hkeys (findCat_eq_none_iff.mp hfind)
  | some gp =>
      obtain ⟨d, hd, hw, hht, hmw⟩ :=
        placeLoop_carries cfg _ 0 0 0 0 (g.1, gp) (findCat_mem hfind)
      have hdeq : d = catDims cfg w g.2 :=
        assoc_unique (categoryDimensions_nodup cfg w _) hd hdim
      subst hdeq
      refine ⟨gp, rfl, ?_, ?_, ?_⟩
      · rw [hmw]; rfl
      · rw [hw, hmw]; rfl
      · rw [hht]; rfl

theorem catPos_pairwise (cfg : LayoutConfig) (hpad : 0 < cfg.nodePadding)
    (hh : 0 ≤ cfg.nodeHeight) (hcat : 0 < cfg.categoryPadding)
    (hdw : 0 ≤ cfg.defaultNodeWidth) (w : NodeWidthMap)
    (grouped : List (ServiceCategory × List (String × Service))) :
    List.Pairwise (fun a b => BoxSep cfg.categoryPadding a.2 b.2)
      (computeCategoryPositions cfg w grouped) :=
  placeLoop_pairwise cfg hcat _ (categoryDimensions_nonneg hpad hh hdw) 0 0 0 0 le_rfl

/-! Assembly of the non-overlap theorem -/

theorem computeLayout_pairwise (cfg : LayoutConfig) (hpad : 0 < cfg.nodePadding)
    (hh : 0 ≤ cfg.nodeHeight) (hcat : 0 < cfg.categoryPadding)
    (hdw : 0 ≤ cfg.defaultNodeWidth) (w : NodeWidthMap) (services : ServiceMap) :
    List.Pairwise (NoOverlapPair cfg w) (computeLayout cfg w services).services := by
  have hserv : (computeLayout cfg w services).services =
      ((groupByCategory services).map (fun g =>
        match findCat g.1 (computeCategoryPositions cfg w (groupByCategory services)) with
        | none => []
        | some gp => positionGroup cfg g.2 gp)).flatten := rfl
  rw [hserv, List.pairwise_flatten]
  constructor
  · intro l hl
    obtain ⟨g, hg, rfl⟩ := List.mem_map.mp hl
    obtain ⟨gp, hfind, hmw, hwidth, hheight⟩ := catPos_of_group cfg w services hg
    rw [hfind]
    have hne : g.2 ≠ [] := groupByCategory_ne_nil g hg
    have hcols : 0 < ceilSqrt g.2.length := ceilSqrt_pos (List.length_pos.mpr hne)
    have hmw0 : 0 ≤ gp.maxNodeWidth := hmw ▸ getMaxWidth_nonneg hdw
    have hes : ∀ e ∈ g.2, getNodeWidth cfg w e.1 ≤ gp.maxNodeWidth := by
      intro e he
      rw [hmw]
      exact le_getMaxWidth he
    exact pairwise_positionGroupAux hcols hpad hh hmw0 g.2 hes 0
  · rw [List.pairwise_map]
    have hne : List.Pairwise (fun g1 g2 => g1.1 ≠ g2.1) (groupByCategory services) :=
      List.pairwise_map.mp (groupByCategory_nodup services)
    refine List.Pairwise.imp_of_mem ?_ hne
    intro g1 g2 h1 h2 hne12 x hx y hy
    cases hf1 : findCat g1.1 (computeCategoryPositions cfg w (groupByCategory services)) with
    | none => rw [hf1] at hx; cases hx
    | some gp1 =>
        cases hf2 : findCat g2.1 (computeCategoryPositions cfg w (groupByCategory services)) with
        | none => rw [hf2] at hy; cases hy
        | some gp2 =>
            rw [hf1] at hx
            rw [hf2] at hy
            obtain ⟨gp1', hfind1, hmw1, hwidth1, hheight1⟩ := catPos_of_group cfg w services h1
            obtain ⟨gp2', hfind2, hmw2, hwidth2, hheight2⟩ := catPos_of_group cfg w services h2
            rw [hfind1] at hf1
            rw [hfind2] at hf2
            cases Option.some_inj.mp hf1
            cases Option.some_inj.mp hf2
            have hmw01 : 0 ≤ gp1.maxNodeWidth := hmw1 ▸ getMaxWidth_nonneg hdw
            have hmw02 : 0 ≤ gp2.maxNodeWidth := hmw2 ▸ getMaxWidth_nonneg hdw
            have hbox1 : InBox cfg w gp1 x :=
              positionGroup_inBox hpad hh hmw01
                (fun e he => hmw1 ▸ le_getMaxWidth he) hwidth1 hheight1 x hx
            have hbox2 : InBox cfg w gp2 y :=
              positionGroup_inBox hpad hh hmw02
                (fun e he => hmw2 ▸ le_getMaxWidth he) hwidth2 hheight2 y hy
            have hsep : BoxSep cfg.categoryPadding gp1 gp2 := by
              have hsym : Symmetric
                  (fun a b : ServiceCategory × GroupPos => BoxSep cfg.categoryPadding a.2 b.2) :=
                fun a b h => BoxSep_symm h
              have hne_pairs : ((g1.1, gp1) : ServiceCategory × GroupPos) ≠ (g2.1, gp2) := by
                intro hEq
                apply hne12
                have hfst := congrArg Prod.fst hEq
                simpa using hfst
              exact ((catPos_pairwise cfg hpad hh hcat hdw w _).forall hsym)
                (findCat_mem hfind1) (findCat_mem hfind2) hne_pairs
            exact noOverlap_of_boxSep hcat hbox1 hbox2 hsep

theorem allPairs_filter_nil {α : Type} {R : α → α → Bool} :
    ∀ {l : List α}, List.Pairwise (fun a b => R a b = false) l →
      (allPairs l).filter (fun pr => R pr.1 pr.2) = [] := by
  intro l
  induction l with
  | nil => intro _; rfl
  | cons x xs ih =>
      intro hpw
      obtain ⟨hx, hxs⟩ := List.pairwise_cons.mp hpw
      simp only [allPairs, List.filter_append]
      rw [ih hxs, List.filter_eq_nil_iff.mpr, List.append_nil]
      intro a ha
      obtain ⟨y, hy, rfl⟩ := List.mem_map.mp ha
      simp [hx y hy]

/-- C1: with the default layout configuration, `validateNoOverlaps` on the
services positioned by `computeLayout` reports zero colliding pairs, for
every input service map and node width map (variable widths included). -/
theorem layout_no_overlaps (w : NodeWidthMap) (services : ServiceMap) :
    validateNoOverlaps DEFAULT_CONFIG w (computeLayout DEFAULT_CONFIG w services).services =
      (true, []) := by
  have hpw := computeLayout_pairwise DEFAULT_CONFIG (by norm_num [DEFAULT_CONFIG])
    (by norm_num [DEFAULT_CONFIG]) (by norm_num [DEFAULT_CONFIG])
    (by norm_num [DEFAULT_CONFIG]) w services
  have hpw2 : List.Pairwise
      (fun e1 e2 : String × Service =>
        nodesOverlap DEFAULT_CONFIG w e1.1 (e1.2.x, e1.2.y) e2.1 (e2.2.x, e2.2.y) = false)
      (computeLayout DEFAULT_CONFIG w services).services := hpw
  have hnil := allPairs_filter_nil hpw2
  unfold validateNoOverlaps
  rw [hnil]
  rfl

/-! Permutation lemmas for the frame property -/

theorem flatten_addToGroups (gs : List (ServiceCategory × List (String × Service)))
    (c : ServiceCategory) (e : String × Service) :
    ((addToGroups gs c e).map Prod.snd).flatten.Perm
      ((gs.map Prod.snd).flatten ++ [e]) := by
  induction gs with
  | nil => simp [addToGroups]
  | cons g rest ih =>
      obtain ⟨c', es⟩ := g
      by_cases hc : c = c'
      · simp only [addToGroups, if_pos hc, List.map_cons, List.flatten_cons]
        rw [List.append_assoc, List.append_assoc]
        exact List.Perm.append_left es List.perm_append_comm
      · simp only [addToGroups, if_neg hc, List.map_cons, List.flatten_cons]
        rw [List.append_assoc]
        exact ih.append_left es

theorem flatten_foldl_addToGroups (ss : ServiceMap) :
    ∀ gs, ((ss.foldl (fun gs' e => addToGroups gs' e.2.category e) gs).map Prod.snd).flatten.Perm
      ((gs.map Prod.snd).flatten ++ ss) := by
  induction ss with
  | nil => intro gs; simp
  | cons e rest ih =>
      intro gs
      refine (ih (addToGroups gs e.2.category e)).trans ?_
      have h := (flatten_addToGroups gs e.2.category e).append_right rest
      rw [List.append_assoc] at h
      exact h

theorem flatten_groupByCategoryRaw (ss : ServiceMap) :
    ((groupByCategoryRaw ss).map Prod.snd).flatten.Perm ss := by
  have h := flatten_foldl_addToGroups ss []
  simpa [groupByCategoryRaw] using h

theorem flatten_groupByCategory (ss : ServiceMap) :
    ((groupByCategory ss).map Prod.snd).flatten.Perm ss := by
  refine List.Perm.trans ?_ (flatten_groupByCategoryRaw ss)
  refine List.Perm.flatten_congr ?_
  unfold groupByCategory
  rw [List.map_map, List.forall₂_map_right_iff, List.forall₂_map_left_iff]
  rw [List.forall₂_same]
  intro g _
  exact List.perm_insertionSort _ _

theorem positionGroupAux_eraseXY (cfg : LayoutConfig) (gp : GroupPos) (cols : ℕ) :
    ∀ (es : List (String × Service)) (i : ℕ),
      (positionGroupAux cfg gp cols i es).map (fun e => (e.1, eraseXY e.2)) =
        es.map (fun e => (e.1, eraseXY e.2)) := by
  intro es
  induction es with
  | nil => intro i; rfl
  | cons e rest ih =>
      intro i
      simp only [positionGroupAux, List.map_cons, ih]
      rfl

/-- C10: the positioned service map returned by `computeLayout` has exactly
the input's entries with only `x`/`y` rewritten: erasing the coordinates on
both sides yields permuted-equal association lists (same keys, and every
other field of every service unchanged). -/
theorem layout_preserves_fields (cfg : LayoutConfig) (w : NodeWidthMap)
    (services : ServiceMap) :
    ((computeLayout cfg w services).services.map (fun e => (e.1, eraseXY e.2))).Perm
      (services.map (fun e => (e.1, eraseXY e.2))) := by
  have hserv : (computeLayout cfg w services).services =
      ((groupByCategory services).map (fun g =>
        match findCat g.1 (computeCategoryPositions cfg w (groupByCategory services)) with
        | none => []
        | some gp => positionGroup cfg g.2 gp)).flatten := rfl
  rw [hserv, List.map_flatten, List.map_map]
  have hcongr : ((groupByCategory services).map
        ((fun l : List (String × Service) => l.map (fun e => (e.1, eraseXY e.2))) ∘
          (fun g =>
            match findCat g.1 (computeCategoryPositions cfg w (groupByCategory services)) with
            | none => []
            | some gp => positionGroup cfg g.2 gp))) =
      (groupByCategory services).map (fun g => g.2.map (fun e => (e.1, eraseXY e.2))) := by
    refine List.map_congr_left ?_
    intro g hg
    obtain ⟨gp, hfind, _, _, _⟩ := catPos_of_group cfg w services hg
    simp only [Function.comp_apply, hfind]
    unfold positionGroup
    exact positionGroupAux_eraseXY cfg gp _ g.2 0
  rw [hcongr]
  have hmm : (groupByCategory services).map
        (fun g => g.2.map (fun e => (e.1, eraseXY e.2))) =
      ((groupByCategory services).map Prod.snd).map
        (List.map (fun e => (e.1, eraseXY e.2))) := by
    rw [List.map_map]
    rfl
  rw [hmm, ← List.map_flatten]
  exact (flatten_groupByCategory services).map _

end AwsMap
